import Mathlib

/-!
A shallow embedding of the core of the Wrench language interpreter
(AST, environment, type checker, evaluator and pipe engine), translated
from the Rust sources, together with theorems settling the specification
claims about it.

Modelling conventions:
* Rust `i32` is modelled as `Int` with explicit two's-complement wrapping
  (`wrap32`) where the release-profile arithmetic wraps, and with `none`
  where Rust panics even in release (division by zero / division overflow).
* Rust `f64` is modelled by `Rat`; IEEE-754 rounding, infinities and NaN are
  not modelled (no claim depends on them); the float operations that would
  produce non-finite or transcendental results are mapped to `none`.
* Rust panics and all other aborts are modelled as `none` (resp. `Except.error`).
* `Rc<RefCell<Table>>` is modelled as an address into an explicit `Heap`
  (a list of tables); allocation appends, `borrow_mut` updates in place.
* `Vec<Vec<EnvironmentCell>>` environments: the innermost scope is the LAST
  element of the Rust vector and is scanned first (`iter().rev()`).  We store
  the innermost scope FIRST, so Rust `push/pop` become `cons/tail` and the
  reversed iteration order becomes the natural list order.  Within one scope
  Rust iterates front to back and pushes at the back; we keep that order.
* `mpsc` channels are FIFO and each worker processes its input sequentially,
  so a stage is a function on the list of rows that crosses its channel;
  thread interleaving is not observable in the delivered row sequences.
* Non-terminating evaluation is handled with an explicit fuel parameter;
  exhausted fuel yields `none`.
* CSV import (`import` / `async_import`) performs file I/O, which the
  specification declares an external collaborator; those paths are mapped
  to `none` and no claim is settled against them.
-/

namespace Wrench

/-! ## AST (src/frontend/ast.rs) -/

mutual
/-- Static types (`TypeConstruct` in ast.rs).  The variant `any` is the
internal built-in-signature type referenced by typecheck.rs and main.rs
(`TypeConstruct::Any`); it is listed in the specification's type list. -/
inductive TypeConstruct where
  | bool
  | int
  | double
  | string
  | null
  | array (t : TypeConstruct)
  | function (ret : TypeConstruct) (params : List TypeConstruct)
  | table (params : List Parameter)
  | row (params : List Parameter)
  | any

/-- Rust `Parameter::Parameter(TypeConstruct, String)`: a typed, named parameter,
used both for function formals and for column declarations. -/
inductive Parameter where
  | parameter (t : TypeConstruct) (name : String)
end

/-- Binary operators (`Operator` in ast.rs). -/
inductive Operator where
  | multiplication
  | exponent
  | addition
  | subtraction
  | division
  | modulo
  | equals
  | lessThan
  | lessThanOrEqual
  | or

mutual
/-- Expressions (`Expr` in ast.rs).  `Double(f64)` carries a `Rat` here. -/
inductive Expr where
  | number (n : Int)
  | double (d : Rat)
  | null
  | stringLiteral (s : String)
  | identifier (name : String)
  | bool (b : Bool)
  | operation (l : Expr) (op : Operator) (r : Expr)
  | not (e : Expr)
  | table (params : List Parameter)
  | row (cols : List ColumnAssignmentEnum)
  | indexing (e : Expr) (idx : Expr)
  | array (elems : List Expr)
  | pipe (e : Expr) (fname : String) (args : List Expr)
  | functionCall (fname : String) (args : List Expr)
  | columnIndexing (e : Expr) (col : String)

/-- Rust `ColumnAssignmentEnum::ColumnAssignment(TypeConstruct, String, Expr)`. -/
inductive ColumnAssignmentEnum where
  | columnAssignment (t : TypeConstruct) (name : String) (e : Expr)
end

mutual
/-- Statements (`Statement` in ast.rs).  `ret`, `ifS`, `forS`, `whileS` stand
for the Rust variants `Return`, `If`, `For`, `While` (Lean keywords). -/
inductive Statement where
  | expr (e : Expr)
  | variableAssignment (name : String) (e : Expr)
  | declaration (d : Declaration)
  | ret (e : Expr)
  | ifS (cond : Expr) (body : Statement) (elseBody : Statement)
  | forS (p : Parameter) (iter : Expr) (body : Statement)
  | whileS (cond : Expr) (body : Statement)
  | compound (s1 : Statement) (s2 : Statement)
  | skip

/-- Declarations (`Declaration` in ast.rs). -/
inductive Declaration where
  | variable (t : TypeConstruct) (name : String) (value : Expr)
  | constant (t : TypeConstruct) (name : String) (value : Expr)
  | function (ret : TypeConstruct) (name : String) (params : List Parameter)
      (body : Statement)
end

/-! Structural equality on types and parameters (`#[derive(PartialEq)]`
in Rust, used by the type checker's `==` / `!=` comparisons). -/

mutual
def TypeConstruct.beq : TypeConstruct → TypeConstruct → Bool
  | .bool, .bool => true
  | .int, .int => true
  | .double, .double => true
  | .string, .string => true
  | .null, .null => true
  | .array a, .array b => a.beq b
  | .function r ps, .function r2 ps2 => r.beq r2 && TypeConstruct.beqList ps ps2
  | .table ps, .table ps2 => Parameter.beqList ps ps2
  | .row ps, .row ps2 => Parameter.beqList ps ps2
  | .any, .any => true
  | _, _ => false
termination_by structural t => t

def TypeConstruct.beqList : List TypeConstruct → List TypeConstruct → Bool
  | [], [] => true
  | a :: as2, b :: bs => a.beq b && TypeConstruct.beqList as2 bs
  | _, _ => false
termination_by structural l => l

def Parameter.beq : Parameter → Parameter → Bool
  | .parameter t n, .parameter t2 n2 => t.beq t2 && n == n2
termination_by structural p => p

def Parameter.beqList : List Parameter → List Parameter → Bool
  | [], [] => true
  | a :: as2, b :: bs => a.beq b && Parameter.beqList as2 bs
  | _, _ => false
termination_by structural l => l
end

/-- Rust `TypeConstruct::Function(_, _)` pattern test (`matches!` in typecheck.rs). -/
def TypeConstruct.isFunction : TypeConstruct → Bool
  | .function _ _ => true
  | _ => false

/-! ## Tables and rows (src/backend/table.rs) -/

/-- Cell types (`TableCellType`). -/
inductive TableCellType where
  | int
  | double
  | string
  | bool
deriving DecidableEq, Repr

/-- Cells (`TableCell`). -/
inductive TableCell where
  | int (n : Int)
  | double (d : Rat)
  | string (s : String)
  | bool (b : Bool)
deriving DecidableEq, Repr

/-- Rust `Row { data: Vec<(String, TableCell)> }`: an ordered name→cell sequence. -/
structure Row where
  data : List (String × TableCell)
deriving DecidableEq, Repr

/-- Rust `HashMap<String, TableCellType>` modelled as an association list with
unique keys; insertion replaces an existing key in place. -/
abbrev TableStructure := List (String × TableCellType)

/-- HashMap::insert: replace the binding if the key exists, else append. -/
def structInsert (k : String) (v : TableCellType) : TableStructure → TableStructure
  | [] => [(k, v)]
  | (k2, v2) :: rest =>
    if k2 = k then (k, v) :: rest else (k2, v2) :: structInsert k v rest

/-- HashMap::get by key (first match; keys are unique). -/
def structLookup (s : TableStructure) (k : String) : Option TableCellType :=
  (s.find? (fun p => p.1 = k)).map (·.2)

/-- Rust `Table { data: Vec<Row>, structure: HashMap<String, TableCellType> }`.
The schema field is called `structure` in Rust (a Lean keyword). -/
structure Table where
  data : List Row
  structure_ : TableStructure
deriving DecidableEq, Repr

/-- Rust `Table::new(s)`: empty row list with the given structure. -/
def Table.new (s : TableStructure) : Table := ⟨[], s⟩

/-- Rust `Table::add_row`: pushes the row at the end, with no validation. -/
def Table.add_row (t : Table) (r : Row) : Table := ⟨t.data ++ [r], t.structure_⟩

/-- A loop `for row in rows { t.add_row(row) }`: used both by the reduce
stage's buffering loop and by the terminal collection loop in pipes.rs. -/
def Table.add_rows (t : Table) : List Row → Table
  | [] => t
  | r :: rs => Table.add_rows (t.add_row r) rs

/-- Rust `Table::parameters_to_structure`: inserts each primitive-typed column
into the map; panics (`none`) on a non-primitive column type. -/
def parameters_to_structure (params : List Parameter) : Option TableStructure :=
  go params []
where
  go : List Parameter → TableStructure → Option TableStructure
    | [], acc => some acc
    | .parameter t name :: rest, acc =>
      match t with
      | .bool => go rest (structInsert name .bool acc)
      | .int => go rest (structInsert name .int acc)
      | .string => go rest (structInsert name .string acc)
      | .double => go rest (structInsert name .double acc)
      | _ => none

/-! ## Runtime values (src/backend/evaluate.rs) -/

/-- Rust `ExpressionValue`; the `Table` variant holds `Rc<RefCell<Table>>`,
modelled as an address into the heap. -/
inductive ExpressionValue where
  | number (n : Int)
  | double (d : Rat)
  | string (s : String)
  | bool (b : Bool)
  | table (addr : Nat)
  | row (r : Row)
  | array (elems : List ExpressionValue)
  | null

/-- The shared mutable store backing every `Rc<RefCell<Table>>` of one thread. -/
abbrev Heap := List Table

/-- Rust `StatementValue`: `noneV` is Rust's `StatementValue::None`, `ret` is
`StatementValue::Return(value)`. -/
inductive StatementValue where
  | noneV
  | ret (v : ExpressionValue)

/-- Rust `Row::get`: first cell with the given column name, as a value;
panics (`none`) if the column is absent. -/
def Row.get (r : Row) (column_name : String) : Option ExpressionValue :=
  match r.data.find? (fun p => p.1 = column_name) with
  | some (_, .int i) => some (.number i)
  | some (_, .double d) => some (.double d)
  | some (_, .string s) => some (.string s)
  | some (_, .bool b) => some (.bool b)
  | none => none

/-- Rust `Table::get_column`: the column's cells in row order, as an array value;
panics (`none`) if any row lacks the column. -/
def Table.get_column (t : Table) (column_name : String) : Option ExpressionValue :=
  (t.data.mapM (fun (r : Row) => r.get column_name)).map .array

/-! ## Values crossing pipe channels (src/backend/pipes.rs) -/

/-- Rust `PipeValue`: like `ExpressionValue` but tables are carried by value. -/
inductive PipeValue where
  | number (n : Int)
  | double (d : Rat)
  | string (s : String)
  | bool (b : Bool)
  | table (t : Table)
  | row (r : Row)
  | array (elems : List PipeValue)
  | null

/-! ## Environment (src/backend/environment.rs) -/

mutual
/-- Rust `WrenchFunction`: a function with its captured closure (a snapshot of the
function bindings visible at declaration). -/
inductive WrenchFunction where
  | mk (return_type : TypeConstruct) (name : String) (parameters : List Parameter)
      (body : Statement) (closure : List WrenchFunction)

/-- Rust `EnvironmentCell`: a runtime binding.  Note that a `Variable` carries no
constness flag: `Declaration::Constant` and `Declaration::Variable` both
evaluate to this same variant. -/
inductive EnvironmentCell where
  | variable (name : String) (value : ExpressionValue)
  | function (f : WrenchFunction)
end

def WrenchFunction.return_type : WrenchFunction → TypeConstruct
  | .mk r _ _ _ _ => r

def WrenchFunction.name : WrenchFunction → String
  | .mk _ n _ _ _ => n

def WrenchFunction.parameters : WrenchFunction → List Parameter
  | .mk _ _ p _ _ => p

def WrenchFunction.body : WrenchFunction → Statement
  | .mk _ _ _ b _ => b

def WrenchFunction.closure : WrenchFunction → List WrenchFunction
  | .mk _ _ _ _ c => c

/-- The name under which a cell is found (`var_name` / `function.name`). -/
def EnvironmentCell.cellName : EnvironmentCell → String
  | .variable n _ => n
  | .function f => f.name

/-- An environment: scopes with the INNERMOST first (see the header note). -/
abbrev Env := List (List EnvironmentCell)

/-- Rust `env_new`. -/
def env_new : Env := []

/-- Rust `env_expand_scope`: push a fresh innermost scope. -/
def env_expand_scope (env : Env) : Env := [] :: env

/-- Rust `env_shrink_scope`: drop the innermost scope (`Vec::pop`; a no-op on an
empty environment, like `pop` on an empty vector). -/
def env_shrink_scope (env : Env) : Env := env.tail

/-- Rust `env_get_optional`: the first cell with the given name, scanning scopes
innermost-first and cells front-to-back. -/
def env_get_optional (env : Env) (name : String) : Option EnvironmentCell :=
  match env with
  | [] => none
  | scope :: rest =>
    match scope.find? (fun c => c.cellName = name) with
    | some c => some c
    | none => env_get_optional rest name

/-- Rust `env_get`: like `env_get_optional` but panics (`none`) when absent. -/
def env_get (env : Env) (name : String) : Option EnvironmentCell :=
  env_get_optional env name

/-- Rust `env_add`: panics (`none`) if the name is visible anywhere in the stack,
otherwise pushes the cell at the back of the innermost scope. -/
def env_add (env : Env) (cell : EnvironmentCell) : Option Env :=
  if (env_get_optional env cell.cellName).isSome then none
  else
    match env with
    | [] => none
    | scope :: rest => some ((scope ++ [cell]) :: rest)

/-- The two panic paths of `env_update`. -/
inductive UpdateError where
  | notFound
  | notAVariable
deriving DecidableEq, Repr

/-- In-place update of the first cell with the given name inside one scope;
`none` when the scope has no such cell. -/
def scope_update (name : String) (v : ExpressionValue) :
    List EnvironmentCell → Option (Except UpdateError (List EnvironmentCell))
  | [] => none
  | c :: rest =>
    match c with
    | .variable n _ =>
      if n = name then some (.ok (.variable n v :: rest))
      else
        match scope_update name v rest with
        | some (.ok s) => some (.ok (c :: s))
        | some (.error e) => some (.error e)
        | none => none
    | .function f =>
      if f.name = name then some (.error .notAVariable)
      else
        match scope_update name v rest with
        | some (.ok s) => some (.ok (c :: s))
        | some (.error e) => some (.error e)
        | none => none

/-- Rust `env_update`: updates the nearest visible `Variable` binding in place;
panics with distinct diagnostics when the name is absent or names a
function.  There is no constant check here: constness does not exist in
the runtime environment. -/
def env_update (env : Env) (name : String) (v : ExpressionValue) :
    Except UpdateError Env :=
  match env with
  | [] => .error .notFound
  | scope :: rest =>
    match scope_update name v scope with
    | some (.ok scope2) => .ok (scope2 :: rest)
    | some (.error e) => .error e
    | none =>
      match env_update rest name v with
      | .ok rest2 => .ok (scope :: rest2)
      | .error e => .error e

/-- Rust `env_to_closure`: all visible function bindings, outermost scope first
(Rust iterates the scope vector front to back, i.e. our list reversed). -/
def env_to_closure (env : Env) : List WrenchFunction :=
  env.reverse.flatMap (fun scope =>
    scope.filterMap (fun c =>
      match c with
      | .function f => some f
      | _ => none))

/-- Rust `WrenchFunction::get_closure_as_env`: a fresh single-scope environment
holding the captured functions (panics, i.e. `none`, on duplicate names). -/
def WrenchFunction.get_closure_as_env (f : WrenchFunction) : Option Env :=
  f.closure.foldlM (fun env g => env_add env (.function g)) (env_expand_scope env_new)

/-! ## i32 arithmetic helpers -/

/-- Two's-complement wrap of an integer into the `i32` range (the
release-profile behaviour of Rust's overflowing `+`, `-`, `*`, `pow`). -/
def wrap32 (x : Int) : Int := (x + 2 ^ 31) % 2 ^ 32 - 2 ^ 31

/-- Rust `r as u32` for an `i32` value: reinterpretation modulo `2^32`. -/
def u32_of_i32 (x : Int) : Nat := (x % 2 ^ 32).toNat

/-- Rust panics on `i32` division/remainder when the divisor is 0 or on the
single overflowing case `i32::MIN / -1`. -/
def i32_div_panics (l r : Int) : Bool := r == 0 || (l == -(2 ^ 31) && r == -1)

/-! ## Value marshalling between evaluator and pipes (pipes.rs) -/

mutual
/-- Rust `expression_value_to_pipe_value`: snapshots shared tables by value
(`t.borrow().clone()`); `none` only if a table address dangles, which
cannot happen for values produced by the evaluator. -/
def expression_value_to_pipe_value (heap : Heap) : ExpressionValue → Option PipeValue
  | .number n => some (.number n)
  | .double d => some (.double d)
  | .string s => some (.string s)
  | .bool b => some (.bool b)
  | .table addr => (heap.get? addr).map .table
  | .row r => some (.row r)
  | .array a => (expr_values_to_pipe_values heap a).map .array
  | .null => some .null

def expr_values_to_pipe_values (heap : Heap) :
    List ExpressionValue → Option (List PipeValue)
  | [] => some []
  | v :: vs =>
    match expression_value_to_pipe_value heap v with
    | some v2 =>
      match expr_values_to_pipe_values heap vs with
      | some rest => some (v2 :: rest)
      | none => none
    | none => none
end

mutual
/-- Rust `pipe_value_to_expression_value`: re-wraps tables in fresh shared cells
(`Rc::new(RefCell::new(t))`), i.e. allocates on the receiving thread's heap. -/
def pipe_value_to_expression_value : PipeValue → Heap → ExpressionValue × Heap
  | .number n, heap => (.number n, heap)
  | .double d, heap => (.double d, heap)
  | .string s, heap => (.string s, heap)
  | .bool b, heap => (.bool b, heap)
  | .table t, heap => (.table heap.length, heap ++ [t])
  | .row r, heap => (.row r, heap)
  | .array a, heap =>
    let (vs, heap) := pipe_values_to_expression_values a heap
    (.array vs, heap)
  | .null, heap => (.null, heap)

def pipe_values_to_expression_values :
    List PipeValue → Heap → List ExpressionValue × Heap
  | [], heap => ([], heap)
  | v :: vs, heap =>
    let (v2, heap) := pipe_value_to_expression_value v heap
    let (rest, heap) := pipe_values_to_expression_values vs heap
    (v2 :: rest, heap)
end

/-! ## Binary operations (evaluate_operation in evaluate.rs)

Each operator permits exactly the operand-tag pairs matched by the Rust
code; every other combination falls through to a panic (`none`). -/

def evaluate_operation (left : ExpressionValue) (operator : Operator)
    (right : ExpressionValue) : Option ExpressionValue :=
  match operator with
  | .addition =>
    match left, right with
    | .number l, .number r => some (.number (wrap32 (l + r)))
    | .string l, .string r => some (.string (l ++ r))
    | .double l, .double r => some (.double (l + r))
    | _, _ => none
  | .subtraction =>
    match left, right with
    | .number l, .number r => some (.number (wrap32 (l - r)))
    | .double l, .double r => some (.double (l - r))
    | _, _ => none
  | .or =>
    match left, right with
    | .bool l, .bool r => some (.bool (l || r))
    | _, _ => none
  | .lessThan =>
    match left, right with
    | .number l, .number r => some (.bool (l < r))
    | .double l, .double r => some (.bool (l < r))
    | _, _ => none
  | .lessThanOrEqual =>
    match left, right with
    | .number l, .number r => some (.bool (l ≤ r))
    | .double l, .double r => some (.bool (l ≤ r))
    | _, _ => none
  | .multiplication =>
    match left, right with
    | .number l, .number r => some (.number (wrap32 (l * r)))
    | .double l, .double r => some (.double (l * r))
    | _, _ => none
  | .modulo =>
    match left, right with
    | .number l, .number r =>
      if i32_div_panics l r then none else some (.number (Int.tmod l r))
    | .double l, .double r =>
      -- f64 `%` by zero yields NaN, which the rational model cannot carry;
      -- otherwise it is the remainder of division truncated toward zero.
      if r = 0 then none
      else some (.double (l - r * Int.tdiv (l / r).num ((l / r).den : Int)))
    | _, _ => none
  | .equals =>
    match left, right with
    | .bool l, .bool r => some (.bool (l == r))
    | .number l, .number r => some (.bool (l == r))
    | .string l, .string r => some (.bool (l == r))
    | .double l, .double r => some (.bool (l == r))
    | _, _ => none
  | .division =>
    match left, right with
    | .number l, .number r =>
      if i32_div_panics l r then none else some (.number (Int.tdiv l r))
    | .double l, .double r =>
      -- f64 `/ 0` yields an infinity, which the rational model cannot carry.
      if r = 0 then none else some (.double (l / r))
    | _, _ => none
  | .exponent =>
    match left, right with
    | .number l, .number r =>
      -- `l.pow(*r as u32)`: the exponent is reinterpreted as u32 and the
      -- repeated i32 multiplications wrap in release builds.
      some (.number (wrap32 (l ^ u32_of_i32 r)))
    | .double l, .double r =>
      -- f64::powf is transcendental for non-integral exponents; only the
      -- integral case is representable in the rational model.
      if r.den = 1 then
        if l = 0 ∧ r.num < 0 then none else some (.double (l ^ r.num))
      else none
    | _, _ => none

/-! ## Built-in library (src/backend/library.rs) -/

/-- Rust `wrench_print`: writes its arguments to stdout (not modelled) and
returns `Null`. -/
def wrench_print (_args : List ExpressionValue) : ExpressionValue := .null

/-- Rust `wrench_table_add_row`: appends the row to the shared table in place;
panics (`none`) unless the first two arguments are a table and a row.
No check against the table's structure is performed. -/
def wrench_table_add_row (args : List ExpressionValue) (heap : Heap) :
    Option (ExpressionValue × Heap) :=
  match args.get? 0 with
  | some (.table addr) =>
    match args.get? 1 with
    | some (.row r) =>
      match heap.get? addr with
      | some t => some (.null, heap.set addr (t.add_row r))
      | none => none
    | _ => none
  | _ => none

/-! ## Pipe stages (src/backend/pipes.rs)

Each stage runs on its own worker connected by FIFO channels, so its
observable behaviour is a function from the list of rows received on its
input channel to the list of rows sent on its output channel.  The call of
the user function is abstracted as a `Row → Option PipeValue`
(resp. `Table → Option PipeValue`) argument, instantiated by the evaluator
with `evaluate_fn_row_call` / `evaluate_fn_table_call`. -/

/-- Stage classification (`get_pipe_type`): by the declared return type of
the stage's function. -/
inductive PipeType where
  | map
  | filter
  | reduce
deriving DecidableEq, Repr

/-- Rust `PipeFunction`: print or a user function. -/
inductive PipeFunction where
  | print
  | custom (f : WrenchFunction)

/-- Rust `SimplePipe`: one stage of a rolled-out pipe chain, with its already
evaluated extra arguments. -/
structure SimplePipe where
  function : PipeFunction
  args : List PipeValue

/-- Rust `SimplePipe::get_pipe_type` on a custom function: Table→Reduce,
Bool→Filter, anything else→Map.  (On `print` the Rust method panics; the
engine never asks.) -/
def get_pipe_type (f : WrenchFunction) : PipeType :=
  match f.return_type with
  | .table _ => .reduce
  | .bool => .filter
  | _ => .map

/-- Rust `SimplePipe::get_call_structure`: the structure of the function's first
parameter, which must be a table type (otherwise the worker panics). -/
def get_call_structure (f : WrenchFunction) : Option TableStructure :=
  match f.parameters with
  | .parameter (.table table_type) _ :: _ => parameters_to_structure table_type
  | _ => none

/-- Rust `SimplePipe::get_return_structure`: the structure of the declared return
type, which must be a table or row type (otherwise the worker panics). -/
def get_return_structure (f : WrenchFunction) : Option TableStructure :=
  match f.return_type with
  | .table table_type => parameters_to_structure table_type
  | .row row_type => parameters_to_structure row_type
  | _ => none

/-- The map worker loop: per received row call the function; a returned row
is sent downstream, any other result is a panic. -/
def pipe_map_stage (call : Row → Option PipeValue) : List Row → Option (List Row)
  | [] => some []
  | r :: rs =>
    match call r with
    | some (.row r2) => (pipe_map_stage call rs).map (fun out => r2 :: out)
    | _ => none

/-- The filter worker loop: per received row call the function; on `true`
the ORIGINAL row is forwarded, on `false` nothing is sent, any non-boolean
result is a panic. -/
def pipe_filter_stage (call : Row → Option PipeValue) : List Row → Option (List Row)
  | [] => some []
  | r :: rs =>
    match call r with
    | some (.bool true) => (pipe_filter_stage call rs).map (fun out => r :: out)
    | some (.bool false) => pipe_filter_stage call rs
    | _ => none

/-- The reduce worker: buffer every received row into a private table of the
stage's call structure, call the function once when the channel closes, and
emit the returned table's rows in order.  The first component records the
argument of each reducer invocation (the single post-loop call site). -/
def pipe_reduce_stage (call : Table → Option PipeValue) (callStructure : TableStructure)
    (input : List Row) : List Table × Option (List Row) :=
  let buffered := Table.add_rows (Table.new callStructure) input
  ([buffered],
    match call buffered with
    | some (.table t) => some t.data
    | _ => none)

/-- Sequential composition of the stage workers along their channels
(`evaluate_pipes` wires stage i's receiver to stage i+1). -/
def run_chain_generic (step : SimplePipe → List Row → Option (List Row)) :
    List SimplePipe → List Row → Option (List Row)
  | [], rows => some rows
  | p :: ps, rows => (step p rows).bind (run_chain_generic step ps)

/-- The terminal collection of `evaluate_pipes`: run the chain, then collect
the rows of the final channel into a table whose structure is the last
stage's declared return structure for a user function, and the empty
structure for `print` (whose worker sends nothing downstream, so the final
channel always delivers the empty row list in that case). -/
def collect_pipes_table (step : SimplePipe → List Row → Option (List Row))
    (pipes : List SimplePipe) (input : List Row) : Option Table :=
  match pipes.getLast? with
  | none => none
  | some last =>
    match run_chain_generic step pipes input with
    | none => none
    | some out =>
      match last.function with
      | .custom f =>
        match get_return_structure f with
        | some rs => some (Table.add_rows (Table.new rs) out)
        | none => none
      | .print => some (Table.add_rows (Table.new []) out)

/-! ## The evaluator (src/backend/evaluate.rs and src/backend/pipes.rs)

A single mutual block, structurally recursive on an explicit fuel
parameter: every mutual call decrements the fuel, so exhausted fuel (and
only exhausted fuel or a Rust panic) yields `none`. -/

mutual

/-- Rust `evaluate_statement`. -/
def evaluate_statement : Nat → Statement → Env → Heap →
    Option (StatementValue × Env × Heap)
  | 0, _, _, _ => none
  | fuel + 1, stmt, env, heap =>
    match stmt with
    | .declaration d =>
      match evaluate_declaration fuel d env heap with
      | some (env, heap) => some (.noneV, env, heap)
      | none => none
    | .expr e =>
      match evaluate_expression fuel e env heap with
      | some (_, heap) => some (.noneV, env, heap)
      | none => none
    | .variableAssignment x e =>
      match evaluate_expression fuel e env heap with
      | some (v, heap) =>
        match env_update env x v with
        | .ok env => some (.noneV, env, heap)
        | .error _ => none
      | none => none
    | .compound s1 s2 =>
      match evaluate_statement fuel s1 env heap with
      | some (.ret v, env, heap) => some (.ret v, env, heap)
      | some (.noneV, env, heap) =>
        match evaluate_statement fuel s2 env heap with
        | some (.ret v, env, heap) => some (.ret v, env, heap)
        | some (.noneV, env, heap) => some (.noneV, env, heap)
        | none => none
      | none => none
    | .skip => some (.noneV, env, heap)
    | .ret e =>
      match evaluate_expression fuel e env heap with
      | some (v, heap) => some (.ret v, env, heap)
      | none => none
    | .ifS cond s1 s2 =>
      match evaluate_expression fuel cond env heap with
      | some (.bool true, heap) => evaluate_statement fuel s1 env heap
      | some (.bool false, heap) => evaluate_statement fuel s2 env heap
      | _ => none
    | .forS param e body =>
      match evaluate_expression fuel e env heap with
      | some (iter, heap) =>
        match param with
        | .parameter _ n =>
          match iter with
          | .table addr =>
            -- the rows are read under a `borrow()` held for the whole loop;
            -- a body that mutates the table would panic in Rust (not modelled,
            -- the snapshot below iterates the rows as of loop entry)
            match heap.get? addr with
            | some t =>
              evaluate_for_loop fuel n body (t.data.map .row) env heap
            | none => none
          | .array elems => evaluate_for_loop fuel n body elems env heap
          | _ => none
      | none => none
    | .whileS cond body => evaluate_while_loop fuel cond body env heap

/-- Rust `evaluate_declaration`: constants become plain variables (no constness
flag exists at runtime); function declarations capture the visible
functions into the closure. -/
def evaluate_declaration : Nat → Declaration → Env → Heap → Option (Env × Heap)
  | 0, _, _, _ => none
  | fuel + 1, d, env, heap =>
    match d with
    | .variable _ x e =>
      match evaluate_expression fuel e env heap with
      | some (v, heap) =>
        match env_add env (.variable x v) with
        | some env => some (env, heap)
        | none => none
      | none => none
    | .constant _ x e =>
      match evaluate_expression fuel e env heap with
      | some (v, heap) =>
        match env_add env (.variable x v) with
        | some env => some (env, heap)
        | none => none
      | none => none
    | .function t x params body =>
      match env_add env (.function (.mk t x params body (env_to_closure env))) with
      | some env => some (env, heap)
      | none => none

/-- The per-iteration body shared by the `Table` and `Array` arms of the
For statement: push a scope, bind the loop variable, run the body, pop the
scope, short-circuiting a `Return`. -/
def evaluate_for_loop : Nat → String → Statement → List ExpressionValue →
    Env → Heap → Option (StatementValue × Env × Heap)
  | 0, _, _, _, _, _ => none
  | _ + 1, _, _, [], env, heap => some (.noneV, env, heap)
  | fuel + 1, n, body, elem :: rest, env, heap =>
    match env_add (env_expand_scope env) (.variable n elem) with
    | some env2 =>
      match evaluate_statement fuel body env2 heap with
      | some (.ret v, env3, heap) => some (.ret v, env_shrink_scope env3, heap)
      | some (.noneV, env3, heap) =>
        evaluate_for_loop fuel n body rest (env_shrink_scope env3) heap
      | none => none
    | none => none

/-- The `While` loop: the guard is evaluated, a scope is pushed, the body
runs, the scope is popped, on every path (including the `Return`
short-circuit and the final false guard). -/
def evaluate_while_loop : Nat → Expr → Statement → Env → Heap →
    Option (StatementValue × Env × Heap)
  | 0, _, _, _, _ => none
  | fuel + 1, cond, body, env, heap =>
    match evaluate_expression fuel cond env heap with
    | some (c, heap) =>
      let env := env_expand_scope env
      match c with
      | .bool true =>
        match evaluate_statement fuel body env heap with
        | some (.ret v, env, heap) => some (.ret v, env_shrink_scope env, heap)
        | some (.noneV, env, heap) =>
          evaluate_while_loop fuel cond body (env_shrink_scope env) heap
        | none => none
      | .bool false => some (.noneV, env_shrink_scope env, heap)
      | _ => none
    | none => none

/-- Rust `evaluate_expression`.  Expression evaluation never alters the
environment's structure (it only reads it), so no environment is
returned. -/
def evaluate_expression : Nat → Expr → Env → Heap → Option (ExpressionValue × Heap)
  | 0, _, _, _ => none
  | fuel + 1, e, env, heap =>
    match e with
    | .null => some (.null, heap)
    | .number n => some (.number n, heap)
    | .double d => some (.double d, heap)
    | .bool b => some (.bool b, heap)
    | .stringLiteral s => some (.string s, heap)
    | .operation e1 op e2 =>
      match evaluate_expression fuel e1 env heap with
      | some (left, heap) =>
        match evaluate_expression fuel e2 env heap with
        | some (right, heap) =>
          match evaluate_operation left op right with
          | some v => some (v, heap)
          | none => none
        | none => none
      | none => none
    | .identifier name =>
      match env_get env name with
      | some (.variable _ v) => some (v, heap)
      | _ => none
    | .functionCall name exprs =>
      match evaluate_expr_list fuel exprs env heap with
      | some (args, heap) => evaluate_function_call fuel name args env heap
      | none => none
    | .row cols =>
      match evaluate_row_columns fuel cols env heap with
      | some (cells, heap) => some (.row ⟨cells⟩, heap)
      | none => none
    | .table params =>
      -- evaluate.rs builds the structure with the same per-parameter loop
      -- as Table::parameters_to_structure
      match parameters_to_structure params with
      | some s => some (.table heap.length, heap ++ [Table.new s])
      | none => none
    | .pipe expr fname args => evaluate_pipes fuel expr fname args env heap
    | .not e1 =>
      match evaluate_expression fuel e1 env heap with
      | some (.bool b, heap) => some (.bool !b, heap)
      | _ => none
    | .columnIndexing e1 col =>
      match evaluate_expression fuel e1 env heap with
      | some (.row r, heap) =>
        match r.get col with
        | some v => some (v, heap)
        | none => none
      | some (.table addr, heap) =>
        match heap.get? addr with
        | some t =>
          match t.get_column col with
          | some v => some (v, heap)
          | none => none
        | none => none
      | _ => none
    | .array elems =>
      match evaluate_expr_list fuel elems env heap with
      | some (vs, heap) => some (.array vs, heap)
      | none => none
    | .indexing e1 idx =>
      match evaluate_expression fuel e1 env heap with
      | some (.array arr, heap) =>
        match evaluate_expression fuel idx env heap with
        | some (.number n, heap) =>
          -- `n as usize` wraps a negative index far beyond any length,
          -- so the bounds check fails for it
          if n < 0 then none
          else
            match arr.get? n.toNat with
            | some v => some (v, heap)
            | none => none
        | _ => none
      | _ => none

/-- The argument-evaluation loop of `Expr::FunctionCall` (and of the array
literal): left to right. -/
def evaluate_expr_list : Nat → List Expr → Env → Heap →
    Option (List ExpressionValue × Heap)
  | 0, _, _, _ => none
  | _ + 1, [], _, heap => some ([], heap)
  | fuel + 1, e :: es, env, heap =>
    match evaluate_expression fuel e env heap with
    | some (v, heap) =>
      match evaluate_expr_list fuel es env heap with
      | some (vs, heap) => some (v :: vs, heap)
      | none => none
    | none => none

/-- The column-evaluation loop of `Expr::Row`: only primitive values can be
stored in a cell. -/
def evaluate_row_columns : Nat → List ColumnAssignmentEnum → Env → Heap →
    Option (List (String × TableCell) × Heap)
  | 0, _, _, _ => none
  | _ + 1, [], _, heap => some ([], heap)
  | fuel + 1, .columnAssignment _ name e :: rest, env, heap =>
    match evaluate_expression fuel e env heap with
    | some (v, heap) =>
      match
        (match v with
         | .number n => some (TableCell.int n)
         | .string s => some (TableCell.string s)
         | .bool b => some (TableCell.bool b)
         | .double d => some (TableCell.double d)
         | _ => none)
      with
      | some cell =>
        match evaluate_row_columns fuel rest env heap with
        | some (cells, heap) => some ((name, cell) :: cells, heap)
        | none => none
      | none => none
    | none => none

/-- Rust `evaluate_function_call`: the built-ins dispatch by name first; any
other name must resolve to a function binding.  (`import` reads a CSV file:
external I/O, not modelled.  `async_import` has no built-in dispatch here,
so outside a pipe it reaches `env_get` and panics as an unknown
identifier.)  The non-built-in branch duplicates the body of
`evaluate_custom_function_call` in the Rust source; it is shared here. -/
def evaluate_function_call : Nat → String → List ExpressionValue → Env → Heap →
    Option (ExpressionValue × Heap)
  | 0, _, _, _, _ => none
  | fuel + 1, name, args, env, heap =>
    if name = "print" then some (wrench_print args, heap)
    else if name = "import" then none
    else if name = "table_add_row" then wrench_table_add_row args heap
    else
      match env_get env name with
      | some (.function f) => evaluate_custom_function_call fuel f args heap
      | _ => none

/-- Rust `evaluate_custom_function_call`: build a fresh environment from the
closure, bind the arguments under the formal parameter names (Rust's `zip`
truncates at the shorter list), re-declare the function itself for
recursion, then run the body; a missing `Return` yields `Null`. -/
def evaluate_custom_function_call : Nat → WrenchFunction → List ExpressionValue →
    Heap → Option (ExpressionValue × Heap)
  | 0, _, _, _ => none
  | fuel + 1, f, args, heap =>
    match f.get_closure_as_env with
    | some fun_env =>
      match
        (f.parameters.zip args).foldlM
          (fun env pa =>
            match pa with
            | (.parameter _ param_name, arg) =>
              env_add env (.variable param_name arg))
          fun_env
      with
      | some fun_env =>
        match env_add fun_env (.function f) with
        | some fun_env =>
          match evaluate_statement fuel f.body fun_env heap with
          | some (.ret v, _, heap) => some (v, heap)
          | some (.noneV, _, heap) => some (.null, heap)
          | none => none
        | none => none
      | none => none
    | none => none

/-- Rust `evaluate_pipes`: roll the chain out, produce the initial row stream,
run the stage workers, and collect the final channel into a fresh shared
table.  The `async_import` initial producer streams a CSV file (external
I/O, not modelled); any other initial expression is evaluated once and must
be a table, whose rows are sent in order (`pipe_init_table`). -/
def evaluate_pipes : Nat → Expr → String → List Expr → Env → Heap →
    Option (ExpressionValue × Heap)
  | 0, _, _, _, _, _ => none
  | fuel + 1, expr, fname, args, env, heap =>
    match pipe_rollout fuel expr fname args env heap with
    | some (pipes, initial, heap) =>
      match initial with
      | .functionCall "async_import" _ => none
      | _ =>
        match evaluate_expression fuel initial env heap with
        | some (.table addr, heap) =>
          match heap.get? addr with
          | some t =>
            match
              collect_pipes_table (fun p rows => run_one_pipe fuel p rows)
                pipes t.data
            with
            | some result => some (.table heap.length, heap ++ [result])
            | none => none
          | none => none
        | _ => none
    | none => none

/-- Rust `pipe_rollout`: flatten the right-leaning pipe AST into the stage list
and the initial expression, evaluating each stage's extra arguments in the
calling environment (the rightmost stage's arguments first, as in the
recursion of the Rust code). -/
def pipe_rollout : Nat → Expr → String → List Expr → Env → Heap →
    Option (List SimplePipe × Expr × Heap)
  | 0, _, _, _, _, _ => none
  | fuel + 1, expr, fname, args, env, heap =>
    match evaluate_expr_list fuel args env heap with
    | some (vs, heap) =>
      match expr_values_to_pipe_values heap vs with
      | some pvs =>
        match
          (match fname with
           | "print" => some PipeFunction.print
           | _ =>
             match env_get env fname with
             | some (.function f) => some (PipeFunction.custom f)
             | _ => none)
        with
        | some pf =>
          match expr with
          | .pipe e f a =>
            match pipe_rollout fuel e f a env heap with
            | some (rest, initial, heap) =>
              some (rest ++ [⟨pf, pvs⟩], initial, heap)
            | none => none
          | _ => some ([⟨pf, pvs⟩], expr, heap)
        | none => none
      | none => none
    | none => none

/-- One stage worker (`pipe_middle_map`): print consumes its input and
sends nothing downstream; a custom function is dispatched on its
classification. -/
def run_one_pipe : Nat → SimplePipe → List Row → Option (List Row)
  | 0, _, _ => none
  | fuel + 1, pipe, input =>
    match pipe.function with
    | .print => some []
    | .custom f =>
      match get_pipe_type f with
      | .map =>
        pipe_map_stage (fun row => evaluate_fn_row_call fuel row f pipe.args) input
      | .filter =>
        pipe_filter_stage (fun row => evaluate_fn_row_call fuel row f pipe.args) input
      | .reduce =>
        match get_call_structure f with
        | some cs =>
          (pipe_reduce_stage (fun t => evaluate_fn_table_call fuel t f pipe.args)
            cs input).2
        | none => none

/-- Rust `evaluate_fn_row_call`: the worker-side invocation of a map/filter
function — the row is prepended to the stage arguments, everything is
converted onto the worker's own (fresh) heap, and the result is snapshotted
back into a transferable value. -/
def evaluate_fn_row_call : Nat → Row → WrenchFunction → List PipeValue →
    Option PipeValue
  | 0, _, _, _ => none
  | fuel + 1, row, f, args =>
    match pipe_values_to_expression_values (.row row :: args) [] with
    | (expression_args, heap) =>
      match evaluate_custom_function_call fuel f expression_args heap with
      | some (result, heap) => expression_value_to_pipe_value heap result
      | none => none

/-- Rust `evaluate_fn_table_call`: the worker-side invocation of a reduce
function, with the buffered table prepended. -/
def evaluate_fn_table_call : Nat → Table → WrenchFunction → List PipeValue →
    Option PipeValue
  | 0, _, _, _ => none
  | fuel + 1, t, f, args =>
    match pipe_values_to_expression_values (.table t :: args) [] with
    | (expression_args, heap) =>
      match evaluate_custom_function_call fuel f expression_args heap with
      | some (result, heap) => expression_value_to_pipe_value heap result
      | none => none

end

/-- Rust `interpret`: a fresh environment with one pushed scope and an empty
heap. -/
def interpret (fuel : Nat) (input : Statement) :
    Option (StatementValue × Env × Heap) :=
  evaluate_statement fuel input (env_expand_scope env_new) []

/-! ## The type checker (src/frontend/typecheck.rs)

The scope stack is kept in the Rust order: index 0 is the global scope,
the LAST element is the innermost scope (`lookup_variable` iterates in
reverse, `last_mut` inserts, function declarations insert into
`scope_stack[0]`).  Each `HashMap<String, VariableInfo>` scope is an
association list with unique keys whose `insert` replaces in place.
Error strings are abbreviated versions of the Rust `format!` diagnostics.
The mutual recursion of `infer_type` and `check_and_cast_type` re-infers
rebuilt expressions, so it is not structural on the AST; it carries the
same kind of fuel as the evaluator, with `OUT OF FUEL` marking
exhaustion. -/

/-- Rust `VariableInfo { var_type, is_constant }`. -/
structure VariableInfo where
  var_type : TypeConstruct
  is_constant : Bool

/-- The result of `infer_type`: the (re-built) expression and its type. -/
structure TypedExpr where
  expr : Expr
  expr_type : TypeConstruct

/-- One type-checking scope (`HashMap<String, VariableInfo>`). -/
abbrev TCScope := List (String × VariableInfo)

/-- HashMap::insert: replace the binding in place if the key exists,
otherwise append. -/
def scopeInsert (k : String) (v : VariableInfo) : TCScope → TCScope
  | [] => [(k, v)]
  | (k2, v2) :: rest =>
    if k2 = k then (k, v) :: rest else (k2, v2) :: scopeInsert k v rest

/-- HashMap::get (keys are unique, first match). -/
def scopeLookup (s : TCScope) (k : String) : Option VariableInfo :=
  (s.find? (fun p => p.1 = k)).map (·.2)

/-- The scope stack in the Rust `Vec` order: global first, innermost last. -/
abbrev TCStack := List TCScope

/-- Rust `lookup_variable`: scopes scanned innermost first. -/
def lookup_variable (name : String) (stack : TCStack) : Option VariableInfo :=
  match stack.reverse.find? (fun s => (scopeLookup s name).isSome) with
  | some s => scopeLookup s name
  | none => none

/-- Rust `push_scope`. -/
def push_scope (stack : TCStack) : TCStack := stack ++ [[]]

/-- Rust `pop_scope`. -/
def pop_scope (stack : TCStack) : TCStack := stack.dropLast

/-- Rust `scope_stack.last_mut().unwrap()` mutation.  (The empty-stack panic is
unreachable: the checker starts from the singleton global stack.) -/
def modifyLast (f : TCScope → TCScope) : TCStack → TCStack
  | [] => []
  | [s] => [f s]
  | s :: rest => s :: modifyLast f rest

/-- Rust `scope_stack[0]` mutation (same unreachable-panic caveat). -/
def modifyFirst (f : TCScope → TCScope) : TCStack → TCStack
  | [] => []
  | s :: rest => f s :: rest

/-- Rust `scope_stack[0]` read. -/
def firstScope : TCStack → TCScope
  | [] => []
  | s :: _ => s

/-- The static division-by-zero check: a literal `0` or `0.0` divisor. -/
def is_zero_literal : Expr → Bool
  | .number n => n == 0
  | .double d => d == 0
  | _ => false

/-- Row/Table operand test in the operation rule. -/
def isRowOrTableType : TypeConstruct → Bool
  | .row _ => true
  | .table _ => true
  | _ => false

/-- Rust `create_global_environment` (src/frontend/main.rs): the built-in
function signatures seeding the global scope. -/
def create_global_environment : TCScope :=
  [ ("print", ⟨.function (.table []) [.any], false⟩),
    ("import", ⟨.function (.table []) [.string, .table []], false⟩),
    ("async_import", ⟨.function (.table []) [.string, .any], false⟩),
    ("table_add_row", ⟨.function .null [.any, .any], false⟩) ]

mutual

/-- Rust `type_check`: returns the (mutated) scope stack on success. -/
def type_check : Nat → Statement → TCStack → Except String TCStack
  | 0, _, _ => .error "OUT OF FUEL"
  | fuel + 1, stmt, stack =>
    match stmt with
    | .skip => .ok stack
    | .compound s1 s2 => do
      let stack ← type_check fuel s1 stack
      type_check fuel s2 stack
    | .declaration d =>
      match d with
      | .variable var_type name e => do
        let _ ← check_and_cast_type fuel ⟨var_type, false⟩ e stack
        .ok (modifyLast (scopeInsert name ⟨var_type, false⟩) stack)
      | .constant const_type name e => do
        let typed ← infer_type fuel e stack
        if const_type.beq typed.expr_type then
          .ok (modifyLast (scopeInsert name ⟨const_type, true⟩) stack)
        else .error "Type mismatch for constant"
      | .function return_type name params body => do
        let param_types := params.map (fun p => match p with | .parameter t _ => t)
        let stack := modifyFirst
          (scopeInsert name ⟨.function return_type param_types, true⟩) stack
        let param_scope := params.foldl
          (fun sc p => match p with
            | .parameter t n => scopeInsert n ⟨t, false⟩ sc) []
        -- only the Function-typed entries of scope_stack[0] are carried
        -- into the body's scope stack
        let function_scope := (firstScope stack).filter
          (fun p => p.2.var_type.isFunction)
        let _ ← type_check fuel body [function_scope, param_scope]
        .ok stack
    | .forS param iterable body => do
      let typed_iterable ← infer_type fuel iterable stack
      match typed_iterable.expr_type with
      | .array element_type =>
        match param with
        | .parameter param_type param_name =>
          if param_type.beq element_type then do
            let stack := modifyLast
              (scopeInsert param_name ⟨element_type, false⟩) (push_scope stack)
            let stack ← type_check fuel body stack
            .ok (pop_scope stack)
          else .error "Type mismatch in for-loop"
      | .row _ =>
        match param with
        | .parameter param_type param_name =>
          if param_type.beq typed_iterable.expr_type then do
            let stack := modifyLast
              (scopeInsert param_name ⟨typed_iterable.expr_type, false⟩)
              (push_scope stack)
            let stack ← type_check fuel body stack
            .ok (pop_scope stack)
          else .error "Type mismatch in for-loop"
      | .table table_params =>
        match param with
        | .parameter param_type param_name =>
          match param_type with
          | .row row_params =>
            if Parameter.beqList row_params table_params then do
              let stack := modifyLast
                (scopeInsert param_name ⟨param_type, false⟩) (push_scope stack)
              let stack ← type_check fuel body stack
              .ok (pop_scope stack)
            else .error "Type mismatch in for-loop"
          | _ => .error "Type mismatch in for-loop: expected Row"
      | _ => .error "For-loop iterable must be an array"
    | .variableAssignment name e =>
      match lookup_variable name stack with
      | some var_type =>
        if var_type.is_constant then .error "Cannot assign to constant variable"
        else do
          let _ ← check_and_cast_type fuel var_type e stack
          -- the re-insertion lands in the INNERMOST scope even when the
          -- binding was found further out
          .ok (modifyLast (scopeInsert name var_type) stack)
      | none => .error "Undefined variable"
    | .expr e => do
      let _ ← infer_type fuel e stack
      .ok stack
    | .ifS cond body elseBody => do
      let typed ← infer_type fuel cond stack
      if typed.expr_type.beq .bool then do
        let stack2 ← type_check fuel body (push_scope stack)
        let stack3 ← type_check fuel elseBody (push_scope (pop_scope stack2))
        .ok (pop_scope stack3)
      else .error "If condition must be a boolean"
    | .whileS cond body => do
      let typed ← infer_type fuel cond stack
      if typed.expr_type.beq .bool then do
        let stack2 ← type_check fuel body (push_scope stack)
        .ok (pop_scope stack2)
      else .error "While condition must be a boolean"
    | .ret e => do
      let _ ← infer_type fuel e stack
      .ok stack

/-- Rust `infer_type`. -/
def infer_type : Nat → Expr → TCStack → Except String TypedExpr
  | 0, _, _ => .error "OUT OF FUEL"
  | fuel + 1, e, stack =>
    match e with
    | .number n => .ok ⟨.number n, .int⟩
    | .bool b => .ok ⟨.bool b, .bool⟩
    | .double d => .ok ⟨.double d, .double⟩
    | .stringLiteral s => .ok ⟨.stringLiteral s, .string⟩
    | .null => .ok ⟨.null, .null⟩
    | .identifier name =>
      match lookup_variable name stack with
      | some var_info => .ok ⟨.identifier name, var_info.var_type⟩
      | none => .error ("Undefined variable " ++ name)
    | .operation left op right => do
      let left_typed ← infer_type fuel left stack
      let right_typed ← infer_type fuel right stack
      -- each operand is cast-checked against the OTHER side's type
      let widened_left ←
        check_and_cast_type fuel ⟨right_typed.expr_type, false⟩ left_typed.expr stack
      let widened_right ←
        check_and_cast_type fuel ⟨left_typed.expr_type, false⟩ right_typed.expr stack
      if isRowOrTableType left_typed.expr_type || isRowOrTableType right_typed.expr_type
      then .error "Operation on Row or Table types is not allowed"
      else
        -- the operand-type table, evaluated BEFORE the operator dispatch;
        -- only Int/Double combinations are covered
        match
          (match left_typed.expr_type, right_typed.expr_type with
           | .int, .double => some TypeConstruct.double
           | .double, .int => some TypeConstruct.double
           | .double, .double => some TypeConstruct.double
           | .int, .int => some TypeConstruct.int
           | _, _ => none)
        with
        | none => .error "Operation on incompatible types"
        | some result_type =>
          match op with
          | .equals | .lessThan | .lessThanOrEqual =>
            .ok ⟨.operation widened_left op widened_right, .bool⟩
          | .addition | .subtraction | .multiplication
          | .division | .modulo | .exponent =>
            if result_type.beq .int || result_type.beq .double then
              if ((match op with | .division => true | _ => false)
                  && is_zero_literal right_typed.expr) then
                .error "Division by zero is not allowed"
              else .ok ⟨.operation widened_left op widened_right, result_type⟩
            else .error "Invalid operation for type"
          | .or =>
            if left_typed.expr_type.beq .bool && right_typed.expr_type.beq .bool
            then .ok ⟨.operation widened_left op widened_right, .bool⟩
            else .error "Logical operators require boolean operands"
    | .not inner => do
      let inner_typed ← infer_type fuel inner stack
      if inner_typed.expr_type.beq .bool then
        .ok ⟨.not inner_typed.expr, .bool⟩
      else .error "Logical NOT requires a boolean"
    | .array elems =>
      match elems with
      | [] => .error "Cannot infer type of empty array"
      | e0 :: rest => do
        let first ← infer_type fuel e0 stack
        let _ ← check_elems_same_type fuel rest first.expr_type stack
        -- the Rust code then re-infers every element to rebuild the array
        let typed ← infer_type_list fuel (e0 :: rest) stack
        .ok ⟨.array (typed.map (·.expr)), .array first.expr_type⟩
    | .indexing array_expr index_expr => do
      let array_typed ← infer_type fuel array_expr stack
      let index_typed ← infer_type fuel index_expr stack
      if index_typed.expr_type.beq .int then
        match array_typed.expr_type with
        | .array inner =>
          .ok ⟨.indexing array_typed.expr index_typed.expr, inner⟩
        | .row ps =>
          .ok ⟨.indexing array_typed.expr index_typed.expr, .row ps⟩
        | .table ps =>
          .ok ⟨.indexing array_typed.expr index_typed.expr, .table ps⟩
        | _ => .error "Cannot index into non-array type"
      else .error "Index must be an integer"
    | .functionCall name args =>
      match lookup_variable name stack with
      | some func_type =>
        match func_type.var_type with
        | .function return_type param_types =>
          if args.length = param_types.length then do
            let _ ← check_call_args fuel name (args.zip param_types) 0 stack
            -- import/async_import return the type of their table argument
            if name == "import" || name == "async_import" then
              match args.get? 1 with
              | some (.table params) =>
                .ok ⟨.functionCall name args, .table params⟩
              | _ => .ok ⟨.functionCall name args, return_type⟩
            else .ok ⟨.functionCall name args, return_type⟩
          else .error "Wrong number of arguments in function call"
        | _ => .error "is not a function"
      | none => .error ("Undefined function " ++ name)
    | .pipe left pipe_name args => do
      let left_typed ← infer_type fuel left stack
      match lookup_variable pipe_name stack with
      | some func_type =>
        match func_type.var_type with
        | .function return_type param_types =>
          let effective_args :=
            if args.isEmpty && param_types.length == 1 then [left_typed.expr]
            else args
          if effective_args.length = param_types.length then do
            let allowed ← (show Except String Bool from
              match left_typed.expr_type, return_type with
              | .row cols_in, .row cols_out =>
                .ok (Parameter.beqList cols_in cols_out)
              | .row cols_in, .bool =>
                -- `&param_types[0]` panics on an empty parameter list
                (match param_types.get? 0 with
                 | some (.row cols_param) =>
                   .ok (Parameter.beqList cols_in cols_param)
                 | some _ => .ok false
                 | none => .error "PANIC index out of bounds")
              | .table cols_in, .table cols_out =>
                .ok (Parameter.beqList cols_in cols_out)
              | _, _ => .ok false)
            if allowed then
              .ok ⟨.pipe left_typed.expr pipe_name args, return_type⟩
            else .error "Pipe function must be map filter or reduce shaped"
          else .error "Wrong number of arguments in pipe"
        | _ => .error "is not a valid pipe function"
      | none => .error ("Undefined pipe function " ++ pipe_name)
    | .table params => do
      let _ ← check_table_params fuel params [] stack
      .ok ⟨.table params, .table params⟩
    | .row cols => do
      let param_types ← infer_row_columns fuel cols stack
      .ok ⟨.row cols, .row param_types⟩
    | .columnIndexing table_expr column_name => do
      let table_typed ← infer_type fuel table_expr stack
      match table_typed.expr_type with
      | .table params =>
        match params.find? (fun p => match p with
          | .parameter _ n => n = column_name) with
        | some (.parameter col_type _) =>
          .ok ⟨.columnIndexing table_typed.expr column_name, col_type⟩
        | none => .error "Column not found"
      | .row params =>
        match params.find? (fun p => match p with
          | .parameter _ n => n = column_name) with
        | some (.parameter col_type _) =>
          .ok ⟨.columnIndexing table_typed.expr column_name, col_type⟩
        | none => .error "Column not found"
      | _ => .error "Cannot index into non-table or row type"

/-- The `skip(1)` loop of the array rule: every further element must have
the first element's type. -/
def check_elems_same_type : Nat → List Expr → TypeConstruct → TCStack →
    Except String Unit
  | 0, _, _, _ => .error "OUT OF FUEL"
  | _ + 1, [], _, _ => .ok ()
  | fuel + 1, e :: rest, t0, stack => do
    let t ← infer_type fuel e stack
    if t.expr_type.beq t0 then check_elems_same_type fuel rest t0 stack
    else .error "Array elements must have the same type"

/-- The re-inference pass that rebuilds a list of expressions. -/
def infer_type_list : Nat → List Expr → TCStack → Except String (List TypedExpr)
  | 0, _, _ => .error "OUT OF FUEL"
  | _ + 1, [], _ => .ok []
  | fuel + 1, e :: rest, stack => do
    let t ← infer_type fuel e stack
    let ts ← infer_type_list fuel rest stack
    .ok (t :: ts)

/-- The argument loop of the function-call rule: the second argument of
`import` / `async_import` may be any table; `Any` parameters accept
anything; otherwise the types must match exactly. -/
def check_call_args : Nat → String → List (Expr × TypeConstruct) → Nat →
    TCStack → Except String Unit
  | 0, _, _, _, _ => .error "OUT OF FUEL"
  | _ + 1, _, [], _, _ => .ok ()
  | fuel + 1, name, (arg, param_type) :: rest, i, stack => do
    let arg_typed ← infer_type fuel arg stack
    if ((name == "import" || name == "async_import") && i == 1
        && (match param_type, arg_typed.expr_type with
            | .table _, .table _ => true
            | _, _ => false)) then
      check_call_args fuel name rest (i + 1) stack
    else if param_type.beq .any then check_call_args fuel name rest (i + 1) stack
    else if arg_typed.expr_type.beq param_type then
      check_call_args fuel name rest (i + 1) stack
    else .error "Type mismatch in function call"

/-- The duplicate-name check of the table rule (`seen_names: HashSet`). -/
def check_table_params : Nat → List Parameter → List String → TCStack →
    Except String Unit
  | 0, _, _, _ => .error "OUT OF FUEL"
  | _ + 1, [], _, _ => .ok ()
  | fuel + 1, .parameter _ name :: rest, seen, stack =>
    if seen.contains name then .error "Duplicate parameter name"
    else check_table_params fuel rest (name :: seen) stack

/-- The column loop of the row rule: each initializer must have exactly the
declared column type. -/
def infer_row_columns : Nat → List ColumnAssignmentEnum → TCStack →
    Except String (List Parameter)
  | 0, _, _ => .error "OUT OF FUEL"
  | _ + 1, [], _ => .ok []
  | fuel + 1, .columnAssignment t name e :: rest, stack => do
    let typed ← infer_type fuel e stack
    if t.beq typed.expr_type then do
      let ps ← infer_row_columns fuel rest stack
      .ok (.parameter t name :: ps)
    else .error "Type mismatch for column"

/-- Rust `check_and_cast_type`: Int is accepted where Double is expected (and
returned UNCHANGED — no cast node is inserted); Double where Int is
expected is rejected; otherwise the types must match exactly. -/
def check_and_cast_type : Nat → VariableInfo → Expr → TCStack →
    Except String Expr
  | 0, _, _, _ => .error "OUT OF FUEL"
  | fuel + 1, expected_type, e, stack => do
    let typed ← infer_type fuel e stack
    match expected_type.var_type, typed.expr_type with
    | .double, .int => .ok typed.expr
    | .int, .double => .error "Cannot implicitly cast Double to Int"
    | _, _ =>
      if expected_type.var_type.beq typed.expr_type then .ok typed.expr
      else .error "Type mismatch"

end

/-! ## Map/filter chains: the row-at-a-time specification (claim C1)

`run_mf_chain` is the engine-side semantics: the chain of stage workers,
each transforming the whole row stream of its input channel
(`pipe_map_stage` / `pipe_filter_stage` are the worker loops above).
`rowwise_chain_spec` is the specification-side semantics, written from the
claim's words: each input row travels the whole chain by itself — every
Map stage replaces it by the single row its function returns, every Filter
stage forwards the current row exactly when its function returns true —
and the emitted sequence lists the surviving rows in input order. -/

/-- A stage of a chain composed only of Map and Filter stages, with the
worker-side invocation of its user function abstracted. -/
inductive MFStage where
  | map (call : Row → Option PipeValue)
  | filter (call : Row → Option PipeValue)

/-- Engine side: one worker. -/
def run_mf_stage : MFStage → List Row → Option (List Row)
  | .map call, rows => pipe_map_stage call rows
  | .filter call, rows => pipe_filter_stage call rows

/-- Engine side: the chain of workers, the output channel of each feeding
the next. -/
def run_mf_chain : List MFStage → List Row → Option (List Row)
  | [], rows => some rows
  | s :: rest, rows => (run_mf_stage s rows).bind (run_mf_chain rest)

/-- Specification side: one row through the whole chain.  `some none` means
the row was dropped by a filter; `none` means a stage function misbehaved
(fatal to the program). -/
def process_row_spec : List MFStage → Row → Option (Option Row)
  | [], r => some (some r)
  | .map call :: rest, r =>
    match call r with
    | some (.row r2) => process_row_spec rest r2
    | _ => none
  | .filter call :: rest, r =>
    match call r with
    | some (.bool true) => process_row_spec rest r
    | some (.bool false) => some none
    | _ => none

/-- Specification side: the surviving rows, in input order. -/
def rowwise_chain_spec (stages : List MFStage) : List Row → Option (List Row)
  | [] => some []
  | r :: rs =>
    match process_row_spec stages r with
    | none => none
    | some none => rowwise_chain_spec stages rs
    | some (some r2) => (rowwise_chain_spec stages rs).map (fun out => r2 :: out)

/-! ## The table invariant (claim C7)

`row_matches_structure` and `table_invariant` formalise the
specification's invariant wording: every row of a table carries exactly
the columns named by the table's structure, each cell having the declared
type. -/

/-- The type tag of a cell. -/
def cellTypeOf : TableCell → TableCellType
  | .int _ => .int
  | .double _ => .double
  | .string _ => .string
  | .bool _ => .bool

/-- The row has a cell for every declared column, and every cell it has is
a declared column of the declared type. -/
def row_matches_structure (s : TableStructure) (r : Row) : Bool :=
  s.all (fun p => r.data.any (fun q => q.1 == p.1)) &&
  r.data.all (fun q =>
    match structLookup s q.1 with
    | some ty => cellTypeOf q.2 == ty
    | none => false)

/-- The specification's table invariant. -/
def table_invariant (t : Table) : Bool :=
  t.data.all (row_matches_structure t.structure_)

/-- Unique keys, the `HashMap` representation invariant. -/
def keysUnique (s : TCScope) : Prop := (s.map Prod.fst).Nodup

/-- No entry keyed `k` in the scope has a function type. -/
def noFnAt (s : TCScope) (k : String) : Prop :=
  ∀ p ∈ s, p.1 = k → p.2.var_type.isFunction = false

theorem rowwise_chain_spec_nil (rows : List Row) :
    rowwise_chain_spec [] rows = some rows := by
  induction rows with
  | nil => rfl
  | cons r rs ih => simp [rowwise_chain_spec, process_row_spec, ih]

theorem option_bind_const_none {α β : Type} (o : Option α) :
    o.bind (fun _ => (none : Option β)) = none := by
  cases o <;> rfl

theorem option_map_bind {α β γ : Type} (o : Option α) (g : α → β)
    (f : β → Option γ) : (o.map g).bind f = o.bind (fun a => f (g a)) := by
  cases o <;> rfl

theorem option_bind_map {α β γ : Type} (o : Option α) (f : α → Option β)
    (g : β → γ) : o.bind (fun a => (f a).map g) = (o.bind f).map g := by
  cases o <;> rfl

theorem option_bind_congr {α β : Type} {o : Option α} {f g : α → Option β}
    (h : ∀ a, f a = g a) : o.bind f = o.bind g := by
  cases o <;> simp [h]

/-- One engine stage followed by the row-wise rest equals the row-wise whole. -/
theorem run_mf_stage_bind (s : MFStage) (rest : List MFStage) :
    ∀ rows, (run_mf_stage s rows).bind (rowwise_chain_spec rest) =
      rowwise_chain_spec (s :: rest) rows := by
  intro rows
  induction rows with
  | nil => cases s <;> rfl
  | cons r rs ih =>
    cases s with
    | map call =>
      simp only [run_mf_stage] at ih ⊢
      simp only [pipe_map_stage, rowwise_chain_spec, process_row_spec]
      cases hc : call r with
      | none => rfl
      | some pv =>
        cases pv with
        | row r2 =>
          rw [option_map_bind]
          cases hp : process_row_spec rest r2 with
          | none =>
            simp only [rowwise_chain_spec, hp]
            exact option_bind_const_none _
          | some o =>
            cases o with
            | none =>
              simp only [rowwise_chain_spec, hp]
              exact ih
            | some r3 =>
              simp only [rowwise_chain_spec, hp]
              rw [option_bind_map, ih]
        | number n => rfl
        | double d => rfl
        | string s => rfl
        | bool b => rfl
        | table t => rfl
        | array a => rfl
        | null => rfl
    | filter call =>
      simp only [run_mf_stage] at ih ⊢
      simp only [pipe_filter_stage, rowwise_chain_spec, process_row_spec]
      cases hc : call r with
      | none => rfl
      | some pv =>
        cases pv with
        | bool b =>
          cases b with
          | true =>
            rw [option_map_bind]
            cases hp : process_row_spec rest r with
            | none =>
              simp only [rowwise_chain_spec, hp]
              exact option_bind_const_none _
            | some o =>
              cases o with
              | none =>
                simp only [rowwise_chain_spec, hp]
                exact ih
              | some r3 =>
                simp only [rowwise_chain_spec, hp]
                rw [option_bind_map, ih]
          | false =>
            simp only [rowwise_chain_spec]
            exact ih
        | number n => rfl
        | double d => rfl
        | string s => rfl
        | row r2 => rfl
        | table t => rfl
        | array a => rfl
        | null => rfl

/-! ## Further pipe lemmas (claims C2, C3) -/

/-- Buffering rows one `add_row` at a time appends them in order. -/
theorem add_rows_eq (rows : List Row) :
    ∀ ds s, Table.add_rows ⟨ds, s⟩ rows = ⟨ds ++ rows, s⟩ := by
  induction rows with
  | nil => intro ds s; simp [Table.add_rows]
  | cons r rs ih =>
    intro ds s
    show Table.add_rows ⟨ds ++ [r], s⟩ rs = ⟨ds ++ r :: rs, s⟩
    rw [ih]
    simp

theorem run_chain_generic_append (step : SimplePipe → List Row → Option (List Row))
    (p : SimplePipe) : ∀ (ps : List SimplePipe) (rows : List Row),
    run_chain_generic step (ps ++ [p]) rows =
      (run_chain_generic step ps rows).bind (step p) := by
  intro ps
  induction ps with
  | nil => intro rows; simp [run_chain_generic]
  | cons q qs ih =>
    intro rows
    simp only [List.cons_append, run_chain_generic]
    cases step q rows with
    | none => rfl
    | some out => exact ih out

/-! ## Claim theorems -/

/-- C1: for every input row sequence and every pipe chain composed only of
Map and Filter stages, the engine (each stage worker transforming the row
stream of its FIFO input channel) emits exactly the row-at-a-time
specification: each Map stage replaces a row by the single row its
function returns, each Filter stage forwards the current row exactly when
its function returns true, and the emitted sequence lists the surviving
rows in input order (a failure of any stage function is fatal on both
sides). -/
theorem pipe_map_filter_order_preservation (stages : List MFStage) :
    ∀ rows : List Row, run_mf_chain stages rows = rowwise_chain_spec stages rows := by
  induction stages with
  | nil => intro rows; exact (rowwise_chain_spec_nil rows).symm
  | cons s rest ih =>
    intro rows
    calc run_mf_chain (s :: rest) rows
        = (run_mf_stage s rows).bind (run_mf_chain rest) := rfl
      _ = (run_mf_stage s rows).bind (rowwise_chain_spec rest) :=
          option_bind_congr (fun a => ih a)
      _ = rowwise_chain_spec (s :: rest) rows := run_mf_stage_bind s rest rows

/-- C2: a Reduce stage invokes its reducer exactly once per pipe execution
(the invocation log is the one-element list), on a table whose rows are
EXACTLY the rows delivered on its input channel in delivery order (hence
with equal row multiset, including the empty case), and it emits the rows
of the reducer's returned table downstream in that table's order. -/
theorem pipe_reduce_isolation (call : Table → Option PipeValue)
    (cs : TableStructure) (input : List Row) :
    pipe_reduce_stage call cs input =
      ([⟨input, cs⟩],
        match call ⟨input, cs⟩ with
        | some (.table t) => some t.data
        | _ => none) ∧
    Multiset.ofList (Table.mk input cs).data = Multiset.ofList input := by
  have hb : Table.add_rows (Table.new cs) input = ⟨input, cs⟩ := by
    rw [show Table.new cs = (⟨[], cs⟩ : Table) from rfl, add_rows_eq]
    simp
  constructor
  · simp only [pipe_reduce_stage, hb]
  · rfl

/-- C3, counterexample: evaluating a concrete print-terminated pipe
expression returns a Table value (a freshly allocated empty table with
empty schema), not the Null value the claim asserts. -/
theorem print_pipe_not_null_counterexample :
    evaluate_expression 10 (.pipe (.table []) "print" []) [[]] []
      = some (.table 1, [Table.new [], ⟨[], []⟩]) ∧
    ExpressionValue.table 1 ≠ ExpressionValue.null :=
  ⟨rfl, by simp⟩

/-- C3, amended: evaluating a pipe expression always returns a Table
value, never Null.  The terminal collection of `evaluate_pipes` yields,
for a print-terminated chain, the empty table with empty schema whenever
the stages before `print` succeed (the print worker consumes its input and
sends nothing downstream); for a chain ending in a user function, the
table of the final stage's declared return structure holding the final
channel's rows in order.  (Worker joining is subsumed by this sequential
model: the collected result is a function of the fully drained
channels.) -/
theorem evaluate_pipes_collection_amended (fuel : Nat) (input : List Row) :
    (∀ (ps : List SimplePipe) (args : List PipeValue),
      collect_pipes_table (run_one_pipe (fuel + 1)) (ps ++ [⟨.print, args⟩]) input
        = (run_chain_generic (run_one_pipe (fuel + 1)) ps input).map
            (fun _ => (⟨[], []⟩ : Table))) ∧
    (∀ (ps : List SimplePipe) (f : WrenchFunction) (args : List PipeValue),
      collect_pipes_table (run_one_pipe (fuel + 1)) (ps ++ [⟨.custom f, args⟩]) input
        = (run_chain_generic (run_one_pipe (fuel + 1)) (ps ++ [⟨.custom f, args⟩])
            input).bind
            (fun out => (get_return_structure f).map
              (fun rs => (⟨out, rs⟩ : Table)))) ∧
    (∀ (f2 : Nat) (expr : Expr) (fname : String) (args : List Expr) (env : Env)
        (heap : Heap) (v : ExpressionValue) (heap2 : Heap),
      evaluate_pipes f2 expr fname args env heap = some (v, heap2) →
      ∃ addr, v = ExpressionValue.table addr) := by
  refine ⟨?_, ?_, ?_⟩
  case refine_3 =>
    intro f2 expr fname args env heap v heap2 hev
    cases f2 with
    | zero => cases hev
    | succ f3 =>
      simp only [evaluate_pipes] at hev
      repeat' split at hev
      all_goals first
        | (cases hev; exact ⟨_, rfl⟩)
        | cases hev
  · intro ps args
    simp only [collect_pipes_table, List.getLast?_concat]
    rw [run_chain_generic_append]
    cases run_chain_generic (run_one_pipe (fuel + 1)) ps input with
    | none => rfl
    | some out =>
      show (match Table.add_rows (Table.new []) [] with
            | t => some t) = _
      simp [add_rows_eq, Table.new]
  · intro ps f args
    simp only [collect_pipes_table, List.getLast?_concat]
    cases run_chain_generic (run_one_pipe (fuel + 1)) (ps ++ [⟨.custom f, args⟩])
        input with
    | none => rfl
    | some out =>
      cases get_return_structure f with
      | none => rfl
      | some rs =>
        show some (Table.add_rows (Table.new rs) out) = some ⟨out, rs⟩
        rw [show Table.new rs = (⟨[], rs⟩ : Table) from rfl, add_rows_eq]
        simp

/-- C3, witness: the amended theorem applied to a concrete print-terminated
pipe evaluation (which produces a Table value at a fresh heap address). -/
theorem evaluate_pipes_collection_amended_witness :
    evaluate_pipes 9 (.table []) "print" [] [[]] []
      = some (.table 1, [Table.new [], Table.mk [] []]) ∧
    ∃ addr, ExpressionValue.table 1 = ExpressionValue.table addr :=
  ⟨rfl, (evaluate_pipes_collection_amended 0 []).2.2 9 (.table []) "print" []
    [[]] [] (.table 1) [Table.new [], Table.mk [] []] rfl⟩

/-- C4: the claim's widening premise fails as a code bug.  The type checker
cast-checks each operand of a binary operation against the OTHER operand's
type, so `Int + Double` is rejected ("Cannot implicitly cast Double to
Int" on the right-hand check), its Int-Double arm of the operand-type
table being dead code; and the evaluator itself has no mixed `Number` /
`Double` arm for addition, so the direct evaluation the claim describes
panics instead of widening.  The claim's second half is genuine: Double
where Int is expected is rejected, while Int where Double is expected is
accepted (unchanged, with no cast node inserted). -/
theorem int_plus_double_widening_bug :
    infer_type 10 (.operation (.number 5) .addition (.double 4.5))
      [create_global_environment] = .error "Cannot implicitly cast Double to Int" ∧
    evaluate_operation (.number 5) .addition (.double 4.5) = none ∧
    check_and_cast_type 10 ⟨.int, false⟩ (.double 4.5) [create_global_environment]
      = .error "Cannot implicitly cast Double to Int" ∧
    check_and_cast_type 10 ⟨.double, false⟩ (.number 5) [create_global_environment]
      = .ok (.number 5) :=
  ⟨rfl, rfl, rfl, rfl⟩

/-- C5: a code bug.  The operand-type table of the operation rule covers
only Int/Double combinations and is consulted BEFORE the operator
dispatch, so `Bool or Bool` and `String == String` are rejected with
"Operation on incompatible types" even though the dedicated `Or` arm
(requiring two Bools) and the equality arm sit unreachably below, and even
though the evaluator supports both operations. -/
theorem bool_or_and_string_equality_rejected_bug :
    infer_type 10 (.operation (.bool true) .or (.bool true))
      [create_global_environment] = .error "Operation on incompatible types" ∧
    infer_type 10 (.operation (.stringLiteral "a") .equals (.stringLiteral "b"))
      [create_global_environment] = .error "Operation on incompatible types" ∧
    evaluate_operation (.bool true) .or (.bool false) = some (.bool true) ∧
    evaluate_operation (.string "a") .equals (.string "a") = some (.bool true) :=
  ⟨rfl, rfl, rfl, rfl⟩

/-- C10: for integer exponentiation with a negative right operand the
evaluator never reports a negative-exponent error: the exponent is
reinterpreted as `r as u32`, i.e. modulo `2^32` (equal to `2^32 + r` for
negative in-range `r`), and the power is computed with wrapping i32
multiplications; for any base of absolute value at least 2 the
mathematical power at such an exponent exceeds `i32::MAX`, i.e. the i32
computation overflows. -/
theorem exponent_negative_reinterpreted (l r : Int)
    (h1 : -(2 ^ 31) ≤ r) (h2 : r < 0) :
    evaluate_operation (.number l) .exponent (.number r)
      = some (.number (wrap32 (l ^ (2 ^ 32 + r).toNat))) ∧
    u32_of_i32 r = (2 ^ 32 + r).toNat ∧
    (2 ≤ l.natAbs → 2 ^ 31 - 1 < (l ^ (2 ^ 32 + r).toNat).natAbs) := by
  have hu : u32_of_i32 r = (2 ^ 32 + r).toNat := by
    unfold u32_of_i32
    congr 1
    omega
  refine ⟨?_, hu, ?_⟩
  · simp only [evaluate_operation]
    rw [hu]
  · intro ha
    rw [Int.natAbs_pow]
    have he : 2 ^ 31 ≤ (2 ^ 32 + r).toNat := by omega
    have h31 : (31 : Nat) ≤ (2 ^ 32 + r).toNat := le_trans (by norm_num) he
    have hA : (2 : Nat) ^ 31 ≤ 2 ^ (2 ^ 32 + r).toNat :=
      Nat.pow_le_pow_right (by norm_num) h31
    have hB : (2 : Nat) ^ (2 ^ 32 + r).toNat ≤ l.natAbs ^ (2 ^ 32 + r).toNat :=
      Nat.pow_le_pow_left ha _
    exact Nat.lt_of_lt_of_le (by norm_num) (le_trans hA hB)

/-- C10, witness: at `2 ** (-1)` both hypotheses hold and the evaluation
succeeds (no negative-exponent error). -/
theorem exponent_negative_reinterpreted_witness :
    (-(2 ^ 31) ≤ (-1 : Int)) ∧ ((-1 : Int) < 0) ∧
    (evaluate_operation (.number 2) .exponent (.number (-1))).isSome = true := by
  refine ⟨by norm_num, by norm_num, ?_⟩
  rw [(exponent_negative_reinterpreted 2 (-1) (by norm_num) (by norm_num)).1]
  rfl

/-- C7, counterexample: `wrench_table_add_row` accepts a row that does not
match the table's structure and appends it, producing a reachable table
that violates the invariant. -/
theorem table_invariant_counterexample :
    wrench_table_add_row [.table 0, .row ⟨[("x", .bool true)]⟩]
        [Table.new [("id", .int)]]
      = some (.null, [⟨[⟨[("x", .bool true)]⟩], [("id", .int)]⟩]) ∧
    table_invariant ⟨[⟨[("x", .bool true)]⟩], [("id", .int)]⟩ = false :=
  ⟨rfl, rfl⟩

/-- C7, amended: `Table::add_row` performs no validation, so the invariant
is preserved exactly when the appended row already matches the table's
structure; freshly created tables satisfy it vacuously. -/
theorem add_row_preserves_invariant (t : Table) (r : Row)
    (h1 : table_invariant t = true)
    (h2 : row_matches_structure t.structure_ r = true) :
    table_invariant (t.add_row r) = true ∧
    ∀ s, table_invariant (Table.new s) = true := by
  constructor
  · simp only [table_invariant, Table.add_row, List.all_append, Bool.and_eq_true,
      List.all_cons, List.all_nil]
    exact ⟨h1, by simp [h2]⟩
  · intro s; rfl

/-- C7, witness for the amended theorem: a matching row is appended to a
well-formed table and the invariant survives. -/
theorem add_row_preserves_invariant_witness :
    table_invariant ((Table.new [("id", TableCellType.int)]).add_row
      ⟨[("id", .int 7)]⟩) = true :=
  (add_row_preserves_invariant (Table.new [("id", .int)]) ⟨[("id", .int 7)]⟩
    rfl rfl).1

/-! ## Characterisation of `env_update` (claim C8) -/

theorem cellName_variable (n : String) (v : ExpressionValue) :
    (EnvironmentCell.variable n v).cellName = n := rfl

theorem cellName_function (f : WrenchFunction) :
    (EnvironmentCell.function f).cellName = f.name := rfl

/-- One scope: `scope_update` misses, hits a function, or updates the first
matching variable in place, in exact correspondence with what the linear
scan of `env_get_optional` finds there. -/
theorem scope_update_cases (name : String) (v : ExpressionValue) :
    ∀ scope : List EnvironmentCell,
      (scope.find? (fun c => c.cellName = name) = none ∧
        scope_update name v scope = none) ∨
      (∃ f, scope.find? (fun c => c.cellName = name) = some (.function f) ∧
        scope_update name v scope = some (.error .notAVariable)) ∨
      (∃ n0 v0 s2, scope.find? (fun c => c.cellName = name)
          = some (.variable n0 v0) ∧
        scope_update name v scope = some (.ok s2) ∧
        s2.find? (fun c => c.cellName = name) = some (.variable n0 v) ∧
        s2.length = scope.length) := by
  intro scope
  induction scope with
  | nil => exact .inl ⟨rfl, rfl⟩
  | cons c cs ih =>
    rcases c with ⟨n, val⟩ | ⟨f⟩
    · by_cases h : n = name
      · subst h
        refine .inr (.inr ⟨n, val, .variable n v :: cs, ?_, ?_, ?_, rfl⟩)
        · simp [List.find?_cons, cellName_variable, cellName_function]
        · simp [scope_update]
        · simp [List.find?_cons, cellName_variable, cellName_function]
      · rcases ih with ⟨h1, h2⟩ | ⟨f, h1, h2⟩ | ⟨n0, v0, s2, h1, h2, h3, h4⟩
        · refine .inl ⟨?_, ?_⟩
          · simp [List.find?_cons, cellName_variable, cellName_function, h, h1]
          · simp [scope_update, h, h2]
        · refine .inr (.inl ⟨f, ?_, ?_⟩)
          · simp [List.find?_cons, cellName_variable, cellName_function, h, h1]
          · simp [scope_update, h, h2]
        · refine .inr (.inr ⟨n0, v0, .variable n val :: s2, ?_, ?_, ?_, ?_⟩)
          · simp [List.find?_cons, cellName_variable, cellName_function, h, h1]
          · simp [scope_update, h, h2]
          · simp [List.find?_cons, cellName_variable, cellName_function, h, h3]
          · simp [h4]
    · by_cases h : f.name = name
      · refine .inr (.inl ⟨f, ?_, ?_⟩)
        · simp [List.find?_cons, cellName_variable, cellName_function, h]
        · simp [scope_update, h]
      · rcases ih with ⟨h1, h2⟩ | ⟨g, h1, h2⟩ | ⟨n0, v0, s2, h1, h2, h3, h4⟩
        · refine .inl ⟨?_, ?_⟩
          · simp [List.find?_cons, cellName_variable, cellName_function, h, h1]
          · simp [scope_update, h, h2]
        · refine .inr (.inl ⟨g, ?_, ?_⟩)
          · simp [List.find?_cons, cellName_variable, cellName_function, h, h1]
          · simp [scope_update, h, h2]
        · refine .inr (.inr ⟨n0, v0, .function f :: s2, ?_, ?_, ?_, ?_⟩)
          · simp [List.find?_cons, cellName_variable, cellName_function, h, h1]
          · simp [scope_update, h, h2]
          · simp [List.find?_cons, cellName_variable, cellName_function, h, h3]
          · simp [h4]

/-- The whole environment: `env_update` fails with `notFound` exactly when
no binding is visible, fails with `notAVariable` exactly when the nearest
binding is a function, and otherwise replaces the nearest variable binding
in place (scope shape preserved, the name now looks up to the new value). -/
theorem env_update_cases (name : String) (v : ExpressionValue) :
    ∀ env : Env,
      (env_get_optional env name = none ∧
        env_update env name v = .error .notFound) ∨
      (∃ f, env_get_optional env name = some (.function f) ∧
        env_update env name v = .error .notAVariable) ∨
      (∃ n0 v0 env', env_get_optional env name = some (.variable n0 v0) ∧
        env_update env name v = .ok env' ∧
        env_get_optional env' name = some (.variable n0 v) ∧
        env'.map List.length = env.map List.length) := by
  intro env
  induction env with
  | nil => exact .inl ⟨rfl, rfl⟩
  | cons scope rest ih =>
    rcases scope_update_cases name v scope with ⟨s1, s2⟩ | ⟨f, s1, s2⟩ |
      ⟨n0, v0, sc2, s1, s2, s3, s4⟩
    · rcases ih with ⟨h1, h2⟩ | ⟨f, h1, h2⟩ | ⟨n0, v0, env', h1, h2, h3, h4⟩
      · refine .inl ⟨?_, ?_⟩
        · simp [env_get_optional, s1, h1]
        · simp [env_update, s2, h2]
      · refine .inr (.inl ⟨f, ?_, ?_⟩)
        · simp [env_get_optional, s1, h1]
        · simp [env_update, s2, h2]
      · refine .inr (.inr ⟨n0, v0, scope :: env', ?_, ?_, ?_, ?_⟩)
        · simp [env_get_optional, s1, h1]
        · simp [env_update, s2, h2]
        · simp [env_get_optional, s1, h3]
        · simp [h4]
    · refine .inr (.inl ⟨f, ?_, ?_⟩)
      · simp [env_get_optional, s1]
      · simp [env_update, s2]
    · refine .inr (.inr ⟨n0, v0, sc2 :: rest, ?_, ?_, ?_, ?_⟩)
      · simp [env_get_optional, s1]
      · simp [env_update, s2]
      · simp [env_get_optional, s3]
      · simp [s4]

/-- C8, counterexample: a variable declared `const` is stored as a plain
`Variable` cell (the runtime environment has no constness flag), so the
subsequent assignment succeeds instead of failing with a const-assignment
error. -/
theorem const_update_succeeds_counterexample :
    evaluate_statement 6
      (.compound (.declaration (.constant .int "k" (.number 1)))
        (.variableAssignment "k" (.number 2)))
      [[]] [] = some (.noneV, [[.variable "k" (.number 2)]], []) :=
  rfl

/-- C8, amended: `env_update` mutates the nearest visible Variable binding
in place when one exists and otherwise fails — with the unknown-identifier
error when no binding of the name is visible and with the not-a-variable
error when the nearest binding is a function.  It performs NO constant
check: constants are stored as plain variables at runtime (their
immutability is enforced by the type checker only), so updating one
succeeds. -/
theorem env_update_behaviour (env : Env) (name : String) (v : ExpressionValue) :
    (env_get_optional env name = none → env_update env name v = .error .notFound) ∧
    (∀ f, env_get_optional env name = some (.function f) →
      env_update env name v = .error .notAVariable) ∧
    (∀ n0 v0, env_get_optional env name = some (.variable n0 v0) →
      ∃ env', env_update env name v = .ok env' ∧
        env_get_optional env' name = some (.variable n0 v) ∧
        env'.map List.length = env.map List.length) := by
  rcases env_update_cases name v env with ⟨h1, h2⟩ | ⟨f, h1, h2⟩ |
    ⟨n0, v0, env', h1, h2, h3, h4⟩
  · refine ⟨fun _ => h2, fun g hg => ?_, fun n0 v0 hv => ?_⟩
    · rw [h1] at hg; cases hg
    · rw [h1] at hv; cases hv
  · refine ⟨fun hn => ?_, fun g hg => h2, fun n0 v0 hv => ?_⟩
    · rw [h1] at hn; cases hn
    · rw [h1] at hv; cases hv
  · refine ⟨fun hn => ?_, fun g hg => ?_, fun n1 v1 hv => ?_⟩
    · rw [h1] at hn; cases hn
    · rw [h1] at hg; cases hg
    · rw [h1] at hv
      cases hv
      exact ⟨env', h2, h3, h4⟩

/-! ## Scope balance (claim C9) -/

theorem env_add_length {env : Env} {c : EnvironmentCell} {env' : Env}
    (h : env_add env c = some env') : env'.length = env.length := by
  unfold env_add at h
  split at h
  · cases h
  · split at h
    · cases h
    · cases h; simp

theorem env_update_ok_length {env : Env} {name : String} {v : ExpressionValue}
    {env' : Env} (h : env_update env name v = .ok env') :
    env'.length = env.length := by
  rcases env_update_cases name v env with ⟨h1, h2⟩ | ⟨f, h1, h2⟩ |
    ⟨n0, v0, env2, h1, h2, h3, h4⟩
  · rw [h2] at h; cases h
  · rw [h2] at h; cases h
  · rw [h2] at h
    cases h
    have := congrArg List.length h4
    simpa using this

/-- The inductive core of the scope-balance claim, proved simultaneously
for statements, declarations, for-loop iteration and while-loop iteration:
whenever evaluation succeeds, the output environment has exactly as many
scopes as the input environment. -/
theorem balance_all : ∀ fuel : Nat,
    (∀ s env heap r, evaluate_statement fuel s env heap = some r →
      r.2.1.length = env.length) ∧
    (∀ d env heap r, evaluate_declaration fuel d env heap = some r →
      r.1.length = env.length) ∧
    (∀ n body elems env heap r,
      evaluate_for_loop fuel n body elems env heap = some r →
      r.2.1.length = env.length) ∧
    (∀ cond body env heap r,
      evaluate_while_loop fuel cond body env heap = some r →
      r.2.1.length = env.length) := by
  intro fuel
  induction fuel with
  | zero =>
    refine ⟨?_, ?_, ?_, ?_⟩ <;> intros <;> rename_i h <;>
      simp only [evaluate_statement, evaluate_declaration, evaluate_for_loop,
        evaluate_while_loop] at h <;> cases h
  | succ fuel ih =>
    obtain ⟨ihS, ihD, ihF, ihW⟩ := ih
    refine ⟨?_, ?_, ?_, ?_⟩
    · -- statements
      intro s env heap r h
      cases s with
      | expr e =>
        simp only [evaluate_statement] at h
        split at h
        · cases h; rfl
        · cases h
      | variableAssignment x e =>
        simp only [evaluate_statement] at h
        split at h
        · split at h
          · cases h
            rename_i env2 _
            exact env_update_ok_length (by assumption)
          · cases h
        · cases h
      | declaration d =>
        simp only [evaluate_statement] at h
        split at h
        · cases h
          rename_i env2 heap2 heq
          exact ihD d env heap (env2, heap2) heq
        · cases h
      | ret e =>
        simp only [evaluate_statement] at h
        split at h
        · cases h; rfl
        · cases h
      | ifS cond s1 s2 =>
        simp only [evaluate_statement] at h
        split at h
        · exact ihS s1 env _ r h
        · exact ihS s2 env _ r h
        · cases h
      | forS param e body =>
        simp only [evaluate_statement] at h
        split at h
        · rename_i iter heap2 heq
          cases param with
          | parameter t n =>
            simp only at h
            split at h
            · split at h
              · rename_i addr tbl heq2
                exact ihF n body _ env heap2 r h
              · cases h
            · rename_i elems
              exact ihF n body elems env heap2 r h
            · cases h
        · cases h
      | whileS cond body =>
        simp only [evaluate_statement] at h
        exact ihW cond body env heap r h
      | compound s1 s2 =>
        simp only [evaluate_statement] at h
        split at h
        · cases h
          rename_i v env2 heap2 heq
          exact ihS s1 env heap _ heq
        · rename_i v env2 heap2 heq
          split at h
          · cases h
            rename_i v3 env3 heap3 heq3
            have e1 := ihS s1 env heap _ heq
            have e2 := ihS s2 env2 heap2 _ heq3
            simpa using e2.trans e1
          · cases h
            rename_i v3 env3 heap3 heq3
            have e1 := ihS s1 env heap _ heq
            have e2 := ihS s2 env2 heap2 _ heq3
            simpa using e2.trans e1
          · cases h
        · cases h
      | skip =>
        simp only [evaluate_statement] at h
        cases h; rfl
    · -- declarations
      intro d env heap r h
      cases d with
      | «variable» t x e =>
        simp only [evaluate_declaration] at h
        split at h
        · split at h
          · cases h
            exact env_add_length (by assumption)
          · cases h
        · cases h
      | constant t x e =>
        simp only [evaluate_declaration] at h
        split at h
        · split at h
          · cases h
            exact env_add_length (by assumption)
          · cases h
        · cases h
      | function t x params body =>
        simp only [evaluate_declaration] at h
        split at h
        · cases h
          exact env_add_length (by assumption)
        · cases h
    · -- for-loop iteration
      intro n body elems env heap r h
      cases elems with
      | nil =>
        simp only [evaluate_for_loop] at h
        cases h; rfl
      | cons elem rest =>
        simp only [evaluate_for_loop] at h
        split at h
        · rename_i env2 heqadd
          have hlen2 : env2.length = env.length + 1 := by
            have := env_add_length heqadd
            simpa [env_expand_scope] using this
          split at h
          · cases h
            rename_i v env3 heap3 heqb
            have e3 : env3.length = env2.length := by
              simpa using ihS body env2 heap _ heqb
            simp only [env_shrink_scope, List.length_tail]
            omega
          · rename_i env3 heap3 heqb
            have e3 : env3.length = env2.length := by
              simpa using ihS body env2 heap _ heqb
            have e4 := ihF n body rest (env_shrink_scope env3) heap3 r h
            simp only [env_shrink_scope, List.length_tail] at e4
            omega
          · cases h
        · cases h
    · -- while-loop iteration
      intro cond body env heap r h
      simp only [evaluate_while_loop] at h
      split at h
      · rename_i c heap2 heqc
        split at h
        · split at h
          · cases h
            rename_i v env3 heap3 heqb
            have e3 : env3.length = (env_expand_scope env).length := by
              simpa using ihS body (env_expand_scope env) heap2 _ heqb
            simp only [env_shrink_scope, List.length_tail,
              env_expand_scope, List.length_cons] at e3 ⊢
            omega
          · rename_i env3 heap3 heqb
            have e3 : env3.length = (env_expand_scope env).length := by
              simpa using ihS body (env_expand_scope env) heap2 _ heqb
            have e4 := ihW cond body (env_shrink_scope env3) heap3 r h
            simp only [env_shrink_scope, List.length_tail,
              env_expand_scope, List.length_cons] at e3 e4
            omega
          · cases h
        · cases h
          simp [env_expand_scope, env_shrink_scope]
        · cases h
      · cases h

/-- C9: evaluating any statement leaves the environment's scope depth
unchanged on every successful exit path — including the early-exit paths
where a `Return` propagates out of a for-loop iteration, a while-loop
iteration, or a compound statement. -/
theorem evaluate_statement_scope_balance (fuel : Nat) (s : Statement)
    (env : Env) (heap : Heap) (v : StatementValue) (env' : Env) (heap' : Heap)
    (h : evaluate_statement fuel s env heap = some (v, env', heap')) :
    env'.length = env.length :=
  (balance_all fuel).1 s env heap (v, env', heap') h

/-- C9, witness: a for-loop over a two-element array with a returning body
exits early through the scope-popping path and ends with the single
original scope. -/
theorem evaluate_statement_scope_balance_witness :
    evaluate_statement 6
      (.forS (.parameter .int "x") (.array [.number 1, .number 2])
        (.ret (.identifier "x")))
      [[]] [] = some (.ret (.number 1), [[]], []) ∧
    ([[]] : Env).length = ([[]] : Env).length :=
  ⟨rfl, evaluate_statement_scope_balance 6
    (.forS (.parameter .int "x") (.array [.number 1, .number 2])
      (.ret (.identifier "x"))) [[]] [] (.ret (.number 1)) [[]] [] rfl⟩

/-! ## Visibility inside function bodies (claim C6)

The scope stack a function body is checked in contains only the
Function-typed entries of the global scope (plus the parameter scope), so
any top-level binding of a non-function type — constants included — is
invisible there.  The lemmas below track one name through `scopeInsert`
and the function-filtering step. -/

theorem scopeLookup_scopeInsert_self (k : String) (v : VariableInfo) :
    ∀ s : TCScope, scopeLookup (scopeInsert k v s) k = some v := by
  intro s
  induction s with
  | nil => simp [scopeInsert, scopeLookup, List.find?_cons]
  | cons p rest ih =>
    by_cases h : p.1 = k
    · simp [scopeInsert, h, scopeLookup, List.find?_cons]
    · simp only [scopeInsert, h, if_false]
      simp only [scopeLookup, List.find?_cons] at ih ⊢
      simp [h, ih]

theorem scopeLookup_scopeInsert_other (k k2 : String) (v : VariableInfo)
    (hk : k2 ≠ k) :
    ∀ s : TCScope, scopeLookup (scopeInsert k v s) k2 = scopeLookup s k2 := by
  intro s
  induction s with
  | nil => simp [scopeInsert, scopeLookup, List.find?_cons, Ne.symm hk]
  | cons p rest ih =>
    by_cases h : p.1 = k
    · simp only [scopeInsert, h, if_true]
      simp only [scopeLookup, List.find?_cons]
      simp [h, Ne.symm hk]
    · simp only [scopeInsert, h, if_false]
      simp only [scopeLookup, List.find?_cons] at ih ⊢
      by_cases h2 : p.1 = k2
      · simp [h2]
      · simp [h2, ih]

theorem keys_scopeInsert_mem {k x : String} {v : VariableInfo} :
    ∀ {s : TCScope}, x ∈ (scopeInsert k v s).map Prod.fst →
      x ∈ s.map Prod.fst ∨ x = k := by
  intro s
  induction s with
  | nil => intro h; simp [scopeInsert] at h; exact .inr h
  | cons p rest ih =>
    intro h
    by_cases hp : p.1 = k
    · simp only [scopeInsert, hp, if_true, List.map_cons, List.mem_cons] at h
      rcases h with h | h
      · exact .inr h
      · exact .inl (by simp [h])
    · simp only [scopeInsert, hp, if_false, List.map_cons, List.mem_cons] at h
      rcases h with h | h
      · exact .inl (by simp [h])
      · rcases ih h with h2 | h2
        · exact .inl (by simp [h2])
        · exact .inr h2

theorem keysUnique_scopeInsert (k : String) (v : VariableInfo) :
    ∀ s : TCScope, keysUnique s → keysUnique (scopeInsert k v s) := by
  intro s
  induction s with
  | nil => intro _; simp [keysUnique, scopeInsert]
  | cons p rest ih =>
    intro hu
    simp only [keysUnique, List.map_cons, List.nodup_cons] at hu
    by_cases hp : p.1 = k
    · simp only [keysUnique, scopeInsert, hp, if_true, List.map_cons,
        List.nodup_cons]
      exact ⟨hp ▸ hu.1, hu.2⟩
    · simp only [keysUnique, scopeInsert, hp, if_false, List.map_cons,
        List.nodup_cons]
      refine ⟨?_, ih hu.2⟩
      intro hmem
      rcases keys_scopeInsert_mem hmem with h | h
      · exact hu.1 h
      · exact hp h

theorem noFnAt_scopeInsert_self {k : String} {v : VariableInfo}
    (hv : v.var_type.isFunction = false) :
    ∀ s : TCScope, keysUnique s → noFnAt (scopeInsert k v s) k := by
  intro s
  induction s with
  | nil =>
    intro _
    intro p hp hk
    simp [scopeInsert] at hp
    simp [hp, hv]
  | cons q rest ih =>
    intro hu
    simp only [keysUnique, List.map_cons, List.nodup_cons] at hu
    by_cases hq : q.1 = k
    · simp only [scopeInsert, hq, if_true]
      intro p hp hk
      simp only [List.mem_cons] at hp
      rcases hp with hp | hp
      · simp [hp, hv]
      · exfalso
        apply hu.1
        rw [hq]
        have : p.1 ∈ rest.map Prod.fst := List.mem_map_of_mem Prod.fst hp
        rwa [hk] at this
    · simp only [scopeInsert, hq, if_false]
      intro p hp hk
      simp only [List.mem_cons] at hp
      rcases hp with hp | hp
      · exfalso
        apply hq
        rw [hp] at hk
        exact hk
      · exact ih hu.2 p hp hk

theorem noFnAt_scopeInsert_other {k k2 : String} {v : VariableInfo}
    (hk : k2 ≠ k) :
    ∀ s : TCScope, noFnAt s k → noFnAt (scopeInsert k2 v s) k := by
  intro s
  induction s with
  | nil =>
    intro _ p hp hkk
    simp [scopeInsert] at hp
    exact absurd (by rw [hp] at hkk; exact hkk) hk
  | cons q rest ih =>
    intro hs
    by_cases hq : q.1 = k2
    · simp only [scopeInsert, hq, if_true]
      intro p hp hkk
      simp only [List.mem_cons] at hp
      rcases hp with hp | hp
      · exact absurd (by rw [hp] at hkk; exact hkk) hk
      · exact hs p (List.mem_cons_of_mem q hp) hkk
    · simp only [scopeInsert, hq, if_false]
      intro p hp hkk
      simp only [List.mem_cons] at hp
      rcases hp with hp | hp
      · rw [hp] at hkk ⊢
        exact hs q (List.mem_cons_self q rest) hkk
      · exact ih (fun p2 hp2 => hs p2 (List.mem_cons_of_mem q hp2)) p hp hkk

/-- Filtering a scope down to its function-typed entries erases every name
whose entries are all non-functions. -/
theorem scopeLookup_filter_functions_none {k : String} :
    ∀ s : TCScope, noFnAt s k →
      scopeLookup (s.filter (fun p => p.2.var_type.isFunction)) k = none := by
  intro s
  induction s with
  | nil => intro _; rfl
  | cons p rest ih =>
    intro hs
    have hrest := ih (fun q hq => hs q (List.mem_cons_of_mem p hq))
    by_cases hf : p.2.var_type.isFunction = true
    · have hp1 : ¬ p.1 = k := by
        intro hk
        have := hs p (List.mem_cons_self p rest) hk
        rw [this] at hf
        cases hf
      have hd : (decide (p.1 = k)) = false := decide_eq_false hp1
      simp only [List.filter_cons, hf, if_true]
      simp only [scopeLookup, List.find?_cons, hd] at hrest ⊢
      exact hrest
    · simp only [List.filter_cons, hf]
      simpa using hrest

/-- C6, counterexample: the type checker REJECTS a function body that
reads a previously declared top-level constant — the function-scope filter
copies only Function-typed entries of the global scope into the body's
scope stack, so the constant is an undefined identifier there. -/
theorem const_in_function_body_rejected_counterexample :
    type_check 10
      (.compound (.declaration (.constant .int "k" (.number 1)))
        (.declaration (.function .int "f" [] (.ret (.identifier "k")))))
      [create_global_environment]
      = .error "Undefined variable k" := rfl

/-- C6, amended: for every program that declares a top-level constant and
later declares a (differently named) function whose body reads that
constant's name, the type checker REJECTS the function body with an
undefined-variable error: neither constants nor non-const top-level
variables are visible inside function bodies — only function bindings and
the formal parameters are. -/
theorem except_bind_ok {ε α β : Type} (a : α) (f : α → Except ε β) :
    (Except.ok a >>= f) = f a := rfl

theorem const_invisible_in_function_body (name fname : String) (n : Int)
    (h : fname ≠ name) :
    type_check 5
      (.compound (.declaration (.constant .int name (.number n)))
        (.declaration (.function .int fname [] (.ret (.identifier name)))))
      [create_global_environment]
      = .error ("Undefined variable " ++ name) := by
  have hkg : keysUnique create_global_environment := by unfold keysUnique; decide
  have hnofn1 : noFnAt (scopeInsert name ⟨.int, true⟩ create_global_environment)
      name :=
    noFnAt_scopeInsert_self
      (show (⟨TypeConstruct.int, true⟩ : VariableInfo).var_type.isFunction = false
        from rfl)
      create_global_environment hkg
  have hnofn : noFnAt (scopeInsert fname ⟨.function .int [], true⟩
      (scopeInsert name ⟨.int, true⟩ create_global_environment)) name :=
    noFnAt_scopeInsert_other h _ hnofn1
  have hflt : scopeLookup
      ((scopeInsert fname ⟨.function .int [], true⟩
        (scopeInsert name ⟨.int, true⟩ create_global_environment)).filter
          (fun p => p.2.var_type.isFunction)) name = none :=
    scopeLookup_filter_functions_none _ hnofn
  have hfind : List.find? (fun p => p.1 = name)
      ((scopeInsert fname ⟨.function .int [], true⟩
        (scopeInsert name ⟨.int, true⟩ create_global_environment)).filter
          (fun p => p.2.var_type.isFunction)) = none := by
    simp only [scopeLookup] at hflt
    exact Option.map_eq_none'.mp hflt
  have hlv : lookup_variable name
      [((scopeInsert fname ⟨.function .int [], true⟩
        (scopeInsert name ⟨.int, true⟩ create_global_environment)).filter
          (fun p => p.2.var_type.isFunction)), []] = none := by
    simp [lookup_variable, scopeLookup, hfind]
  have hinf : infer_type 2 (.identifier name)
      [((scopeInsert fname ⟨.function .int [], true⟩
        (scopeInsert name ⟨.int, true⟩ create_global_environment)).filter
          (fun p => p.2.var_type.isFunction)), []]
      = .error ("Undefined variable " ++ name) := by
    rw [show (2 : Nat) = 1 + 1 from rfl]
    simp only [infer_type, hlv]
  have hfn : type_check 4
      (.declaration (.function .int fname [] (.ret (.identifier name))))
      [scopeInsert name ⟨.int, true⟩ create_global_environment]
      = .error ("Undefined variable " ++ name) := by
    rw [show (4 : Nat) = 3 + 1 from rfl]
    simp only [type_check, List.map_nil, List.foldl_nil, modifyFirst, firstScope]
    rw [hinf]
    rfl
  have hc : type_check 4
      (.declaration (.constant .int name (.number n)))
      [create_global_environment]
      = .ok [scopeInsert name ⟨.int, true⟩ create_global_environment] := rfl
  rw [show (5 : Nat) = 4 + 1 from rfl]
  rw [show type_check (4 + 1)
      (.compound (.declaration (.constant .int name (.number n)))
        (.declaration (.function .int fname [] (.ret (.identifier name)))))
      [create_global_environment]
      = (type_check 4 (.declaration (.constant .int name (.number n)))
          [create_global_environment] >>= fun stack =>
            type_check 4
              (.declaration (.function .int fname [] (.ret (.identifier name))))
              stack)
      from rfl]
  rw [hc, except_bind_ok]
  exact hfn

/-- C6, witness for the amended theorem at concrete names. -/
theorem const_invisible_in_function_body_witness :
    ("f" ≠ "k") ∧
    type_check 5
      (.compound (.declaration (.constant .int "k" (.number 1)))
        (.declaration (.function .int "f" [] (.ret (.identifier "k")))))
      [create_global_environment]
      = .error ("Undefined variable " ++ "k") :=
  ⟨by decide, const_invisible_in_function_body "k" "f" 1 (by decide)⟩

/-- C8, witness: the amended theorem applied to a one-variable environment. -/
theorem env_update_behaviour_witness :
    ∃ env', env_update [[EnvironmentCell.variable "x" (.number 1)]] "x" (.number 2)
        = .ok env' ∧
      env_get_optional env' "x" = some (.variable "x" (.number 2)) ∧
      env'.map List.length
        = ([[EnvironmentCell.variable "x" (.number 1)]] : Env).map List.length :=
  (env_update_behaviour [[.variable "x" (.number 1)]] "x" (.number 2)).2.2
    "x" (.number 1) rfl

/-- Sanity: spec scenario E1 style arithmetic, 3 + 5 * 2 evaluates to 13
with precedence already resolved in the AST. -/
theorem sanity_e1_arithmetic :
    evaluate_expression 10
      (.operation (.number 3) .addition
        (.operation (.number 5) .multiplication (.number 2)))
      [[]] [] = some (.number 13, []) := rfl

/-- Sanity: spec scenario E3 style recursion, a recursive factorial function
applied to 5 returns 120 through the closure mechanism. -/
theorem sanity_e3_recursion :
    (interpret 60 (.compound
      (.declaration (.function .int "f" [.parameter .int "n"]
        (.ifS (.operation (.identifier "n") .equals (.number 0))
          (.ret (.number 1))
          (.ret (.operation (.identifier "n") .multiplication
            (.functionCall "f"
              [.operation (.identifier "n") .subtraction (.number 1)]))))))
      (.ret (.functionCall "f" [.number 5])))).map (fun r => r.1)
      = some (.ret (.number 120)) := rfl

/-- Sanity: spec scenario E4 style end-to-end pipe, a table(int v) with rows
10, 20, 30 piped through a filter (v less than 25) and a map (v plus 1)
collects exactly the rows 11 and 21, in order, into a table whose structure
is the declared return schema of the map function. -/
theorem sanity_e4_pipe_map_filter :
    (match interpret 20 (.compound
      (.declaration (.function (.row [.parameter .int "v"]) "addone"
        [.parameter (.row [.parameter .int "v"]) "r"]
        (.ret (.row [.columnAssignment .int "v"
          (.operation (.columnIndexing (.identifier "r") "v") .addition
            (.number 1))]))))
      (.compound
        (.declaration (.function .bool "keep"
          [.parameter (.row [.parameter .int "v"]) "r"]
          (.ret (.operation (.columnIndexing (.identifier "r") "v") .lessThan
            (.number 25)))))
        (.compound
          (.declaration (.variable (.table [.parameter .int "v"]) "t"
            (.table [.parameter .int "v"])))
          (.compound
            (.expr (.functionCall "table_add_row"
              [.identifier "t", .row [.columnAssignment .int "v" (.number 10)]]))
            (.compound
              (.expr (.functionCall "table_add_row"
                [.identifier "t",
                 .row [.columnAssignment .int "v" (.number 20)]]))
              (.compound
                (.expr (.functionCall "table_add_row"
                  [.identifier "t",
                   .row [.columnAssignment .int "v" (.number 30)]]))
                (.ret (.pipe (.pipe (.identifier "t") "keep" [])
                  "addone" [])))))))) with
     | some (.ret (.table addr), _, heap) => heap.get? addr
     | _ => none)
      = some ⟨[⟨[("v", .int 11)]⟩, ⟨[("v", .int 21)]⟩], [("v", .int)]⟩ := rfl

end Wrench
